import Mathlib

/-!
Verification of the video-downloader extraction engine (`server.py`).

This file shallowly embeds the core of the program — the URL normalizer
(`_clean_url`), the yt-dlp invocation cascade (`_run_yt_dlp_json` and
`_yt_dlp_fallback_extraction`), the format normalization pipeline and the
result envelope of `extract` — and proves or refutes the frozen claims
about it.

Modelling conventions:
* Python strings are modelled as `List Char`.  `str.strip`, `str.split`,
  substring membership (`in`), `str.startswith` and f-string interpolation
  are modelled by the explicit list functions below.
* Python integers are `Nat` (the program only ever compares and formats
  the numeric stream fields; `fps`/`abr` are modelled as naturals).
* A JSON object is modelled by the typed projection `ParsedJson` /
  `RawFmt` holding exactly the fields the program consumes; an absent key
  is `none` (`dict.get k d` becomes `Option.getD`).
* The external world (subprocess execution, `json.loads`, the clock) is a
  `World` record; running the extractor is a pure lookup in it.
-/

/-- The characters of a string literal, used to write `List Char` constants. -/
def pstr (s : String) : List Char := s.data

/-- Model of Python's default `str.strip` character class (ASCII whitespace). -/
def wsSet (c : Char) : Bool :=
  c = ' ' || c = '\t' || c = '\n' || c = '\r' || c = '\x0b' || c = '\x0c'

/-- Model of the character class of `str.strip('\'" \t\n\r')` in `_clean_url`. -/
def quoteSet (c : Char) : Bool :=
  c = '\'' || c = '"' || c = ' ' || c = '\t' || c = '\n' || c = '\r'

/-- Drop leading characters satisfying `p` (left half of `str.strip`). -/
def stripLeft (p : Char → Bool) : List Char → List Char
  | [] => []
  | c :: cs => if p c then stripLeft p cs else c :: cs

/-- Drop trailing characters satisfying `p` (right half of `str.strip`). -/
def stripRight (p : Char → Bool) (l : List Char) : List Char :=
  (stripLeft p l.reverse).reverse

/-- Model of Python `str.strip` with character class `p`. -/
def pyStrip (p : Char → Bool) (l : List Char) : List Char :=
  stripRight p (stripLeft p l)

/-- Model of Python's substring test `pat in l`. -/
def occursIn (pat : List Char) : List Char → Bool
  | [] => pat.isEmpty
  | c :: cs => pat.isPrefixOf (c :: cs) || occursIn pat cs

/-- Everything strictly before the first occurrence of `sep` (the whole list
when `sep` does not occur): models `l.split(sep)[0]`. -/
def takeUntilStr (sep : List Char) : List Char → List Char
  | [] => []
  | c :: cs => if sep.isPrefixOf (c :: cs) then [] else c :: takeUntilStr sep cs

/-- Everything strictly after the first occurrence of `sep` (`[]` when `sep`
does not occur): together with `takeUntilStr` this models `l.split(sep, 1)[1]`. -/
def dropThroughStr (sep : List Char) : List Char → List Char
  | [] => []
  | c :: cs =>
    if sep.isPrefixOf (c :: cs) then (c :: cs).drop sep.length
    else dropThroughStr sep cs

/-- Single-character variant of `takeUntilStr`. -/
def takeUntilChar (t : Char) : List Char → List Char
  | [] => []
  | c :: cs => if c = t then [] else c :: takeUntilChar t cs

/-- Single-character variant of `dropThroughStr`. -/
def dropThroughChar (t : Char) : List Char → List Char
  | [] => []
  | c :: cs => if c = t then cs else dropThroughChar t cs

/-- Model of Python `l.split(t)` for a single-character separator `t`. -/
def splitOnChar (t : Char) : List Char → List (List Char)
  | [] => [[]]
  | c :: cs =>
    let r := splitOnChar t cs
    if c = t then [] :: r
    else
      match r with
      | [] => [[c]]
      | p :: ps => (c :: p) :: ps

/-- Decimal digit characters of `n`, accumulator form (`fuel ≥ n + 1` suffices). -/
def natToStrCore : Nat → Nat → List Char → List Char
  | 0, _, acc => acc
  | fuel + 1, n, acc =>
    let d := Char.ofNat (48 + n % 10)
    if n < 10 then d :: acc else natToStrCore fuel (n / 10) (d :: acc)

/-- Model of Python `str(n)` / f-string interpolation of a nonnegative integer. -/
def natToStr (n : Nat) : List Char := natToStrCore (n + 1) n []

/-- Hexadecimal digit test, as accepted by `urllib.parse.unquote`. -/
def isHexDigit (c : Char) : Bool :=
  ('0' ≤ c && c ≤ '9') || ('a' ≤ c && c ≤ 'f') || ('A' ≤ c && c ≤ 'F')

/-- Value of a hexadecimal digit. -/
def hexVal (c : Char) : Nat :=
  if '0' ≤ c && c ≤ '9' then c.toNat - 48
  else if 'a' ≤ c && c ≤ 'f' then c.toNat - 87
  else c.toNat - 55

/-- Percent-decoding core.  Model of `urllib.parse.unquote`, exact whenever
every percent-escape denotes an ASCII byte (multi-byte UTF-8 escape
sequences, which the program never feeds it, are decoded byte-wise). -/
def unquoteCore : List Char → List Char
  | [] => []
  | [c] => [c]
  | [c, c1] => c :: unquoteCore [c1]
  | c :: c1 :: c2 :: rest =>
    if c = '%' && isHexDigit c1 && isHexDigit c2 then
      Char.ofNat (16 * hexVal c1 + hexVal c2) :: unquoteCore rest
    else c :: unquoteCore (c1 :: c2 :: rest)

/-- Model of `urllib.parse.unquote_plus`: `+` becomes a space, then
percent-escapes are decoded. -/
def unquotePlus (l : List Char) : List Char :=
  unquoteCore (l.map fun c => if c = '+' then ' ' else c)

/-- Query component of a URL as computed by `urllib.parse.urlparse`: the
fragment is cut at the first `#`, then the query is everything after the
first `?` of the remainder. -/
def urlQueryOf (u : List Char) : List Char :=
  let noFrag := takeUntilChar '#' u
  if noFrag.contains '?' then dropThroughChar '?' noFrag else []

/-- First value of the `v` parameter as produced by
`urllib.parse.parse_qs(query)['v'][0]`: pieces are split on `&`; a piece
contributes when it is nonempty, contains `=`, and its value part is
nonempty; keys and values are `unquote_plus`-decoded.  Returns `none` when
`'v' not in params`. -/
def qsLookupV : List (List Char) → Option (List Char)
  | [] => none
  | p :: ps =>
    if p ≠ [] ∧ p.contains '=' ∧ dropThroughChar '=' p ≠ [] ∧
        unquotePlus (takeUntilChar '=' p) = ['v'] then
      some (unquotePlus (dropThroughChar '=' p))
    else qsLookupV ps

/-- The canonical watch URL built by `_clean_url`'s rewrite branches. -/
def mkWatch (vid : List Char) : List Char :=
  pstr "https://www.youtube.com/watch?v=" ++ vid

/-- Models `u.split(sep)[1]` for the case `sep in u` (the segment between the
first occurrence of `sep` and the following occurrence, if any). -/
def extractAfter (sep u : List Char) : List Char :=
  takeUntilStr sep (dropThroughStr sep u)

/-- Models `s.split('?')[0].split('&')[0]`: the identifier cut applied to the
text extracted after a short-link marker. -/
def idCut (s : List Char) : List Char :=
  takeUntilChar '&' (takeUntilChar '?' s)

/-- Embedding of `VideoExtractorEngine._clean_url`. -/
def cleanUrl (url : List Char) : List Char :=
  if url = [] then []
  else
    let u1 := pyStrip wsSet url
    let u2 := pyStrip quoteSet u1
    let u3 :=
      if occursIn (pstr "youtu.be/") u2 then
        mkWatch (idCut (extractAfter (pstr "youtu.be/") u2))
      else if occursIn (pstr "youtube.com/shorts/") u2 then
        mkWatch (idCut (extractAfter (pstr "youtube.com/shorts/") u2))
      else if occursIn (pstr "youtube.com/watch") u2 && occursIn (pstr "v=") u2 then
        match qsLookupV (splitOnChar '&' (urlQueryOf u2)) with
        | some vid => mkWatch vid
        | none => u2
      else u2
    if (pstr "http://").isPrefixOf u3 || (pstr "https://").isPrefixOf u3 then u3
    else pstr "https://" ++ u3

/-! ## JSON data model -/

/-- A JSON value, used for the metadata fields the program copies verbatim. -/
inductive J where
  | null : J
  | b : Bool → J
  | num : Int → J
  | str : List Char → J
  | arr : List J → J
  | obj : List (List Char × J) → J

/-- Typed projection of one raw stream descriptor (a yt-dlp format dict)
onto the keys the program consumes; `none` models an absent key. -/
structure RawFmt where
  format_id : Option (List Char) := none
  url : Option (List Char) := none
  manifest_url : Option (List Char) := none
  fragment_base_url : Option (List Char) := none
  ext : Option (List Char) := none
  protocol : Option (List Char) := none
  vcodec : Option (List Char) := none
  acodec : Option (List Char) := none
  format_note : Option (List Char) := none
  filesize : Option Nat := none
  filesize_approx : Option Nat := none
  height : Option Nat := none
  width : Option Nat := none
  fps : Option Nat := none
  abr : Option Nat := none
  asr : Option Nat := none
deriving DecidableEq

/-- Typed projection of the JSON object returned by a successful
`json.loads` of yt-dlp's output, restricted to the keys `extract` consults.
`selfFmt` is the same object viewed as a format dict, for the
`formats = [json_data]` fallback. -/
structure ParsedJson where
  title : Option J := none
  duration : Option J := none
  thumbnail : Option J := none
  uploader : Option J := none
  channel : Option J := none
  upload_date : Option J := none
  view_count : Option J := none
  like_count : Option J := none
  webpage_url : Option J := none
  extractor : Option J := none
  formats : Option (List RawFmt) := none
  selfFmt : RawFmt := {}

/-! ## Format normalization (`_extract_format_url`, labels, sizes) -/

/-- One candidate step of `_extract_format_url`: accepted only if present,
a nonempty string, and starting with `http`. -/
def httpOk : Option (List Char) → Option (List Char)
  | some s => if s ≠ [] ∧ (pstr "http").isPrefixOf s then some s else none
  | none => none

/-- Embedding of `_extract_format_url`: direct `url`, then `manifest_url`,
then `fragment_base_url`. -/
def extractFormatUrl (fmt : RawFmt) : Option (List Char) :=
  match httpOk fmt.url with
  | some s => some s
  | none =>
    match httpOk fmt.manifest_url with
    | some s => some s
    | none => httpOk fmt.fragment_base_url

/-- ASCII lower-casing, model of Python `str.lower` on the codec strings. -/
def lowerStr (l : List Char) : List Char := l.map Char.toLower

/-- Embedding of `_generate_quality_label`. -/
def generateQualityLabel (fmt : RawFmt) : List Char :=
  let height := fmt.height.getD 0
  let fps := fmt.fps.getD 0
  let format_note := fmt.format_note.getD []
  let vcodec := fmt.vcodec.getD []
  let quality :=
    if height ≥ 4320 then pstr "8K"
    else if height ≥ 2160 then pstr "4K"
    else if height ≥ 1440 then pstr "1440p"
    else if height ≥ 1080 then pstr "1080p"
    else if height ≥ 720 then pstr "720p"
    else if height ≥ 480 then pstr "480p"
    else if height ≥ 360 then pstr "360p"
    else if height ≥ 240 then pstr "240p"
    else if height ≥ 144 then pstr "144p"
    else if format_note ≠ [] then format_note
    else natToStr height ++ pstr "p"
  let quality :=
    if fps ≠ 0 ∧ fps > 30 then quality ++ natToStr fps ++ pstr "fps"
    else if fps = 60 then quality ++ pstr "60fps"
    else quality
  if vcodec ≠ [] ∧ vcodec ≠ pstr "none" then
    if occursIn (pstr "vp9") (lowerStr vcodec) then quality ++ pstr " (VP9)"
    else if occursIn (pstr "avc") (lowerStr vcodec) then quality ++ pstr " (H.264)"
    else if occursIn (pstr "av1") (lowerStr vcodec) then quality ++ pstr " (AV1)"
    else quality
  else quality

/-- `_generate_quality_label` with the `elif fps == 60` branch removed,
for the dead-branch claim. -/
def generateQualityLabelNoSixty (fmt : RawFmt) : List Char :=
  let height := fmt.height.getD 0
  let fps := fmt.fps.getD 0
  let format_note := fmt.format_note.getD []
  let vcodec := fmt.vcodec.getD []
  let quality :=
    if height ≥ 4320 then pstr "8K"
    else if height ≥ 2160 then pstr "4K"
    else if height ≥ 1440 then pstr "1440p"
    else if height ≥ 1080 then pstr "1080p"
    else if height ≥ 720 then pstr "720p"
    else if height ≥ 480 then pstr "480p"
    else if height ≥ 360 then pstr "360p"
    else if height ≥ 240 then pstr "240p"
    else if height ≥ 144 then pstr "144p"
    else if format_note ≠ [] then format_note
    else natToStr height ++ pstr "p"
  let quality :=
    if fps ≠ 0 ∧ fps > 30 then quality ++ natToStr fps ++ pstr "fps"
    else quality
  if vcodec ≠ [] ∧ vcodec ≠ pstr "none" then
    if occursIn (pstr "vp9") (lowerStr vcodec) then quality ++ pstr " (VP9)"
    else if occursIn (pstr "avc") (lowerStr vcodec) then quality ++ pstr " (H.264)"
    else if occursIn (pstr "av1") (lowerStr vcodec) then quality ++ pstr " (AV1)"
    else quality
  else quality

/-- Embedding of `_generate_audio_label`. -/
def generateAudioLabel (fmt : RawFmt) : List Char :=
  let acodec := fmt.acodec.getD []
  let abr := fmt.abr.getD 0
  let codec :=
    if occursIn (pstr "opus") (lowerStr acodec) then pstr "Opus"
    else if occursIn (pstr "aac") (lowerStr acodec) then pstr "AAC"
    else if occursIn (pstr "mp3") (lowerStr acodec) then pstr "MP3"
    else if occursIn (pstr "flac") (lowerStr acodec) then pstr "FLAC"
    else if occursIn (pstr "vorbis") (lowerStr acodec) then pstr "Vorbis"
    else pstr "Audio"
  if abr ≠ 0 then codec ++ pstr " " ++ natToStr abr ++ pstr "kbps" else codec

/-- Round the fraction `a / b` (with `b > 0`) to the nearest integer, ties
to even: the rounding of Python's `"%.1f"` formatting. -/
def roundHalfEvenFrac (a b : Nat) : Nat :=
  let q := a / b
  let r := a % b
  if 2 * r < b then q
  else if b < 2 * r then q + 1
  else if q % 2 = 0 then q else q + 1

/-- Format the fraction `n / d` with one decimal place, model of Python
`"%.1f"` (which rounds half-to-even). -/
def fmtFrac (n d : Nat) : List Char :=
  let t := roundHalfEvenFrac (10 * n) d
  natToStr (t / 10) ++ pstr "." ++ natToStr (t % 10)

/-- The unit loop of `_format_bytes`, carried out on the exact fraction
`n / d` with `d` the power of `1024` accumulated by `size /= 1024.0`. -/
def formatBytesCore : List (List Char) → Nat → Nat → List Char
  | [], n, d => fmtFrac n d ++ pstr " TB"
  | u :: us, n, d =>
    if n < 1024 * d then fmtFrac n d ++ pstr " " ++ u
    else formatBytesCore us n (1024 * d)

/-- Embedding of `_format_bytes`.  The Python original divides an integer by
powers of two in binary floating point, which is exact below `2 ^ 53`, so the
exact fraction computed here agrees with it on all realistic sizes. -/
def formatBytes : Option Nat → Option (List Char)
  | none => none
  | some 0 => none
  | some (n + 1) =>
    some (formatBytesCore [pstr "B", pstr "KB", pstr "MB", pstr "GB"] (n + 1) 1)

/-! ## The per-stream classification loop of `extract` -/

/-- The normalized video stream record (`video_format` dict). -/
structure VRec where
  format_id : List Char
  url : List Char
  ext : List Char
  filesize : Nat
  filesize_human : Option (List Char)
  protocol : List Char
  height : Nat
  width : Nat
  fps : Nat
  vcodec : List Char
  quality_label : List Char
  is_adaptive : Bool
deriving DecidableEq

/-- The normalized audio stream record (`audio_format` dict). -/
structure ARec where
  format_id : List Char
  url : List Char
  ext : List Char
  filesize : Nat
  filesize_human : Option (List Char)
  protocol : List Char
  acodec : List Char
  abr : Nat
  asr : Nat
  quality_label : List Char
  is_adaptive : Bool
deriving DecidableEq

/-- `has_video` of the loop body: the defaulted `vcodec` is not the
`"none"` sentinel. -/
def hasVideoF (fmt : RawFmt) : Bool := fmt.vcodec.getD (pstr "none") != pstr "none"

/-- `has_audio` of the loop body. -/
def hasAudioF (fmt : RawFmt) : Bool := fmt.acodec.getD (pstr "none") != pstr "none"

/-- The video record the loop appends for `fmt`, when it appends one. -/
def vEntry? (fmt : RawFmt) : Option VRec :=
  match extractFormatUrl fmt with
  | none => none
  | some u =>
    if hasVideoF fmt then
      some
        { format_id := fmt.format_id.getD (pstr "unknown")
          url := u
          ext := fmt.ext.getD (pstr "unknown")
          filesize := fmt.filesize.getD (fmt.filesize_approx.getD 0)
          filesize_human := formatBytes (fmt.filesize <|> fmt.filesize_approx)
          protocol := fmt.protocol.getD (pstr "https")
          height := fmt.height.getD 0
          width := fmt.width.getD 0
          fps := fmt.fps.getD 0
          vcodec := fmt.vcodec.getD (pstr "none")
          quality_label := generateQualityLabel fmt
          is_adaptive := !(hasVideoF fmt && hasAudioF fmt) }
    else none

/-- The audio record the loop appends for `fmt`, when it appends one. -/
def aEntry? (fmt : RawFmt) : Option ARec :=
  match extractFormatUrl fmt with
  | none => none
  | some u =>
    if hasAudioF fmt && !hasVideoF fmt then
      some
        { format_id := fmt.format_id.getD (pstr "unknown")
          url := u
          ext := fmt.ext.getD (pstr "unknown")
          filesize := fmt.filesize.getD (fmt.filesize_approx.getD 0)
          filesize_human := formatBytes (fmt.filesize <|> fmt.filesize_approx)
          protocol := fmt.protocol.getD (pstr "https")
          acodec := fmt.acodec.getD (pstr "none")
          abr := fmt.abr.getD 0
          asr := fmt.asr.getD 0
          quality_label := generateAudioLabel fmt
          is_adaptive := true }
    else none

/-- `video_formats` as accumulated by the loop over the raw list. -/
def videoFormatsOf (l : List RawFmt) : List VRec := l.filterMap vEntry?

/-- `audio_formats` as accumulated by the loop over the raw list. -/
def audioFormatsOf (l : List RawFmt) : List ARec := l.filterMap aEntry?

/-! ## Sorting and deduplication -/

/-- Stable descending insertion: `x` goes before the first element it is
strictly greater than, hence after all earlier key-equal elements. -/
def insDesc {V : Type} (gtB : V → V → Bool) (x : V) : List V → List V
  | [] => [x]
  | y :: ys => if gtB x y then x :: y :: ys else y :: insDesc gtB x ys

/-- Model of Python `list.sort(key=…, reverse=True)` (Timsort): a stable
descending sort. -/
def pySortDesc {V : Type} (gtB : V → V → Bool) (l : List V) : List V :=
  l.foldl (fun acc x => insDesc gtB x acc) []

/-- `reverse=True` comparison for the video sort key
`(x.get('height', 0), x.get('fps', 0))` (Python tuple `>` is lexicographic). -/
def gtV (v w : VRec) : Bool :=
  decide (w.height < v.height ∨ (v.height = w.height ∧ w.fps < v.fps))

/-- `reverse=True` comparison for the audio sort key `x.get('abr', 0)`. -/
def gtA (a b : ARec) : Bool := decide (b.abr < a.abr)

/-- The composite dedup key string `f"{height}_{fps}_{vcodec}"`. -/
def keyV (v : VRec) : List Char :=
  natToStr v.height ++ pstr "_" ++ natToStr v.fps ++ pstr "_" ++ v.vcodec

/-- The composite dedup key string `f"{abr}_{acodec}"`. -/
def keyA (a : ARec) : List Char := natToStr a.abr ++ pstr "_" ++ a.acodec

/-- The `seen`-set deduplication loop: keep an element when its key has not
been seen, first occurrence wins. -/
def dedupAux {V K : Type} [DecidableEq K] (κ : V → K) (seen : List K) :
    List V → List V
  | [] => []
  | v :: vs =>
    if κ v ∈ seen then dedupAux κ seen vs
    else v :: dedupAux κ (κ v :: seen) vs

/-- Deduplicate by key, first occurrence wins. -/
def dedupKeyed {V K : Type} [DecidableEq K] (κ : V → K) (l : List V) : List V :=
  dedupAux κ [] l

/-- `unique_videos` of `extract`: sort, then dedup. -/
def uniqueVideos (l : List RawFmt) : List VRec :=
  dedupKeyed keyV (pySortDesc gtV (videoFormatsOf l))

/-- `unique_audios` of `extract`: sort, then dedup. -/
def uniqueAudios (l : List RawFmt) : List ARec :=
  dedupKeyed keyA (pySortDesc gtA (audioFormatsOf l))

/-! ## The external world and the invocation cascade -/

/-- Outcome of one `subprocess.run` call: either the wall-clock timeout
expired, or the process finished with captured (lossily decoded) text
streams. -/
inductive ProcResult where
  | timeout : ProcResult
  | ok (stdout stderr : List Char) : ProcResult

/-- The ambient environment of one extraction call: subprocess execution,
`json.loads`, `sys.executable` and the clock.  `parse` returns the typed
projection of the parsed object when the line is valid JSON. -/
structure World where
  run : List (List Char) → ProcResult
  parse : List Char → Option ParsedJson
  pythonExe : List Char
  now : List Char

/-- The `"youtube" in url or "youtu.be" in url` test (on the cleaned URL). -/
def isYt (u : List Char) : Bool :=
  occursIn (pstr "youtube") u || occursIn (pstr "youtu.be") u

/-- Argument list of the first (standard) attempt. -/
def attempt1Cmd (u : List Char) : List (List Char) :=
  [pstr "yt-dlp", pstr "--dump-json", pstr "--no-playlist", pstr "--no-warnings",
   pstr "--ignore-errors", pstr "--no-check-certificate", pstr "--geo-bypass",
   pstr "--user-agent",
   pstr "Mozilla/5.0 (Windows NT 10.0; Win64; x64) AppleWebKit/537.36 (KHTML, like Gecko) Chrome/120.0.0.0 Safari/537.36",
   pstr "--add-header",
   pstr "Accept: text/html,application/xhtml+xml,application/xml;q=0.9,*/*;q=0.8",
   pstr "--add-header", pstr "Accept-Language: en-us,en;q=0.5",
   pstr "--add-header", pstr "Sec-Fetch-Mode: navigate", u]

/-- Argument list of the second attempt (alternate user agent, YouTube only). -/
def attempt2Cmd (u : List Char) : List (List Char) :=
  [pstr "yt-dlp", pstr "--dump-json", pstr "--no-playlist", pstr "--no-warnings",
   pstr "--ignore-errors", pstr "--no-check-certificate", pstr "--geo-bypass",
   pstr "--user-agent",
   pstr "Mozilla/5.0 (Windows NT 10.0; Win64; x64; rv:121.0) Gecko/20100101 Firefox/121.0",
   pstr "--add-header",
   pstr "Accept: text/html,application/xhtml+xml,application/xml;q=0.9,*/*;q=0.8", u]

/-- Argument list of the third (minimal) attempt. -/
def attempt3Cmd (u : List Char) : List (List Char) :=
  [pstr "yt-dlp", pstr "--dump-json", pstr "--no-playlist", pstr "--no-warnings",
   pstr "--ignore-errors", pstr "--no-check-certificate", u]

/-- Argument list of the fourth attempt (android client, YouTube only). -/
def attempt4Cmd (u : List Char) : List (List Char) :=
  [pstr "yt-dlp", pstr "--dump-json", pstr "--no-playlist", pstr "--no-warnings",
   pstr "--ignore-errors", pstr "--extractor-args", pstr "youtube:player_client=android", u]

/-- Argument list of the fifth attempt: re-run the last command through the
Python module entry point (`[sys.executable, "-m", "yt_dlp"] + cmd[1:]`;
`cmd` holds the android-client list for YouTube URLs, the minimal list
otherwise). -/
def moduleCmd (w : World) (u : List Char) : List (List Char) :=
  w.pythonExe :: pstr "-m" :: pstr "yt_dlp" ::
    ((if isYt u then attempt4Cmd u else attempt3Cmd u).drop 1)

/-- Argument list of the bot-detection fallback's ios-client attempt. -/
def iosCmd (u : List Char) : List (List Char) :=
  [pstr "yt-dlp", pstr "--dump-json", pstr "--no-playlist", pstr "--no-warnings",
   pstr "--ignore-errors", pstr "--extractor-args", pstr "youtube:player_client=ios", u]

/-- Argument list of the bot-detection fallback's tv-client attempt. -/
def tvCmd (u : List Char) : List (List Char) :=
  [pstr "yt-dlp", pstr "--dump-json", pstr "--no-playlist", pstr "--no-warnings",
   pstr "--ignore-errors", pstr "--extractor-args", pstr "youtube:player_client=tv", u]

/-- `result.stdout.strip().split('\n')[0]`: the first line of the stripped
standard output. -/
def firstLine (out : List Char) : List Char := takeUntilChar '\n' (pyStrip wsSet out)

/-- One attempt's output handling: `if result.stdout.strip(): try: return
json.loads(first_line) except: pass`.  `some j` models the early return,
`none` the fall-through (empty output or parse failure). -/
def tryParse (w : World) (out : List Char) : Option ParsedJson :=
  if pyStrip wsSet out ≠ [] then w.parse (firstLine out) else none

/-- The message of the exception raised on a subprocess timeout. -/
def timeoutMsg (t : Nat) : List Char :=
  pstr "Timeout after " ++ natToStr t ++ pstr " seconds"

/-- The message of the exception raised when the bot-detection fallback
cascade is exhausted. -/
def botMsg : List Char :=
  pstr "YouTube bot detection - try again later or use a different video"

/-- The tv-client half of `_yt_dlp_fallback_extraction`: a timeout, empty
output or parse failure is swallowed and the bot-detection exception is
raised. -/
def fallbackTv (w : World) (u : List Char) : Except (List Char) ParsedJson :=
  match w.run (tvCmd u) with
  | .timeout => .error botMsg
  | .ok out _ =>
    match tryParse w out with
    | some j => .ok j
    | none => .error botMsg

/-- Embedding of `_yt_dlp_fallback_extraction`: try the ios client, then the
tv client; every per-attempt exception is swallowed. -/
def fallbackExtraction (w : World) (u : List Char) : Except (List Char) ParsedJson :=
  match w.run (iosCmd u) with
  | .timeout => fallbackTv w u
  | .ok out _ =>
    match tryParse w out with
    | some j => .ok j
    | none => fallbackTv w u

/-- The tail of the cascade after the fourth attempt: the module re-run,
then the exhaustion handling (bot-detection marker check, truncated stderr
diagnostic).  `err5` below is the stderr of this final run.  All raised
exceptions other than the timeout are re-wrapped by `except Exception` as
`"yt-dlp error: " + str(e)`; the timeout exception is raised from the
`except subprocess.TimeoutExpired` handler itself and is not re-wrapped. -/
def runStep5 (w : World) (u : List Char) (t : Nat) : Except (List Char) ParsedJson :=
  match w.run (moduleCmd w u) with
  | .timeout => .error (timeoutMsg t)
  | .ok out5 err5 =>
    match tryParse w out5 with
    | some j => .ok j
    | none =>
      let errMsg := if err5 ≠ [] then pyStrip wsSet err5 else pstr "No output from yt-dlp"
      if occursIn (pstr "Sign in to confirm") errMsg then
        match fallbackExtraction w u with
        | .ok j => .ok j
        | .error m => .error (pstr "yt-dlp error: " ++ m)
      else .error (pstr "yt-dlp error: yt-dlp failed: " ++ errMsg.take 200)

/-- The fourth (android-client) attempt, run only for YouTube URLs. -/
def runStep4 (w : World) (u : List Char) (t : Nat) : Except (List Char) ParsedJson :=
  if isYt u then
    match w.run (attempt4Cmd u) with
    | .timeout => .error (timeoutMsg t)
    | .ok out _ =>
      match tryParse w out with
      | some j => .ok j
      | none => runStep5 w u t
  else runStep5 w u t

/-- The third (minimal) attempt. -/
def runStep3 (w : World) (u : List Char) (t : Nat) : Except (List Char) ParsedJson :=
  match w.run (attempt3Cmd u) with
  | .timeout => .error (timeoutMsg t)
  | .ok out _ =>
    match tryParse w out with
    | some j => .ok j
    | none => runStep4 w u t

/-- The second (alternate user agent) attempt, run only for YouTube URLs. -/
def runStep2 (w : World) (u : List Char) (t : Nat) : Except (List Char) ParsedJson :=
  if isYt u then
    match w.run (attempt2Cmd u) with
    | .timeout => .error (timeoutMsg t)
    | .ok out _ =>
      match tryParse w out with
      | some j => .ok j
      | none => runStep3 w u t
  else runStep3 w u t

/-- Embedding of `_run_yt_dlp_json`: clean the URL, then run the attempt
cascade.  All five main-cascade subprocess calls sit inside one `try`
block whose `except subprocess.TimeoutExpired` raises `Timeout after …`,
so a timeout on any of them aborts the whole call. -/
def runYtDlpJson (w : World) (url : List Char) (t : Nat) : Except (List Char) ParsedJson :=
  let u := cleanUrl url
  match w.run (attempt1Cmd u) with
  | .timeout => .error (timeoutMsg t)
  | .ok out _ =>
    match tryParse w out with
    | some j => .ok j
    | none => runStep2 w u t

/-! ## The extraction service envelope -/

/-- A value of the result envelope: a copied JSON value, or one of the two
normalized stream lists. -/
inductive EnvVal where
  | j : J → EnvVal
  | vlist : List VRec → EnvVal
  | alist : List ARec → EnvVal

/-- Lookup in an envelope (a Python dict modelled as an ordered
association list). -/
def envLookup (k : List Char) : List (List Char × EnvVal) → Option EnvVal
  | [] => none
  | (k', v) :: rest => if k' = k then some v else envLookup k rest

/-- The `video_info` dict built by `extract`. -/
def videoInfoOf (url : List Char) (pj : ParsedJson) : List (List Char × J) :=
  [(pstr "title", pj.title.getD (J.str (pstr "Unknown"))),
   (pstr "duration", pj.duration.getD (J.num 0)),
   (pstr "thumbnail", pj.thumbnail.getD (J.str [])),
   (pstr "uploader", pj.uploader.getD (pj.channel.getD (J.str (pstr "Unknown")))),
   (pstr "upload_date", pj.upload_date.getD (J.str [])),
   (pstr "view_count", pj.view_count.getD (J.num 0)),
   (pstr "like_count", pj.like_count.getD (J.num 0)),
   (pstr "webpage_url", pj.webpage_url.getD (J.str url)),
   (pstr "extractor", pj.extractor.getD (J.str (pstr "unknown")))]

/-- Truthiness of `json_data.get('url')` (present and a nonempty string). -/
def urlTruthy : Option (List Char) → Bool
  | some s => s ≠ []
  | none => false

/-- `formats = json_data.get('formats', []); if not formats and
json_data.get('url'): formats = [json_data]`. -/
def formatsOf (pj : ParsedJson) : List RawFmt :=
  let fs := pj.formats.getD []
  if fs = [] ∧ urlTruthy pj.selfFmt.url then [pj.selfFmt] else fs

/-- Embedding of `VideoExtractorEngine.extract`: run the cascade; on success
build the success envelope, on any exception build the failure envelope.
The envelope is the returned dict with its keys in insertion order. -/
def extract (w : World) (url : List Char) (t : Nat) : List (List Char × EnvVal) :=
  match runYtDlpJson w url t with
  | .ok pj =>
    let fmts := formatsOf pj
    [(pstr "success", .j (J.b true)),
     (pstr "video_info", .j (J.obj (videoInfoOf url pj))),
     (pstr "video_formats", .vlist ((uniqueVideos fmts).take 20)),
     (pstr "audio_formats", .alist ((uniqueAudios fmts).take 10)),
     (pstr "total_video_formats", .j (J.num (uniqueVideos fmts).length)),
     (pstr "total_audio_formats", .j (J.num (uniqueAudios fmts).length)),
     (pstr "extraction_time", .j (J.str w.now))]
  | .error e =>
    [(pstr "success", .j (J.b false)),
     (pstr "error", .j (J.str e)),
     (pstr "video_info", .j (J.obj [])),
     (pstr "video_formats", .vlist []),
     (pstr "audio_formats", .alist []),
     (pstr "extraction_time", .j (J.str w.now))]

/-! ## Statement vocabulary -/

/-- The spec's reference definition of the video quality label: resolution
from fixed height thresholds, an fps suffix when `fps > 30`, and a codec
tag by case-insensitive substring match.  (Written from the specification
text, to be compared with `generateQualityLabel` from the source.) -/
def specQualityLabel (fmt : RawFmt) : List Char :=
  let height := fmt.height.getD 0
  let fps := fmt.fps.getD 0
  let format_note := fmt.format_note.getD []
  let res :=
    if height ≥ 4320 then pstr "8K"
    else if height ≥ 2160 then pstr "4K"
    else if height ≥ 1440 then pstr "1440p"
    else if height ≥ 1080 then pstr "1080p"
    else if height ≥ 720 then pstr "720p"
    else if height ≥ 480 then pstr "480p"
    else if height ≥ 360 then pstr "360p"
    else if height ≥ 240 then pstr "240p"
    else if height ≥ 144 then pstr "144p"
    else if format_note ≠ [] then format_note
    else natToStr height ++ pstr "p"
  let withFps := if fps > 30 then res ++ natToStr fps ++ pstr "fps" else res
  let lv := lowerStr (fmt.vcodec.getD [])
  if occursIn (pstr "vp9") lv then withFps ++ pstr " (VP9)"
  else if occursIn (pstr "avc") lv then withFps ++ pstr " (H.264)"
  else if occursIn (pstr "av1") lv then withFps ++ pstr " (AV1)"
  else withFps

/-- The composite video dedup key as a tuple `(height, fps, videoCodec)`. -/
def tkeyV (v : VRec) : Nat × Nat × List Char := (v.height, v.fps, v.vcodec)

/-- The composite audio dedup key as a tuple `(bitrate, audioCodec)`. -/
def tkeyA (a : ARec) : Nat × List Char := (a.abr, a.acodec)

/-- Descending lexicographic order on the video sort key `(height, fps)`:
`a` may precede `b`. -/
def vGeKey (a b : VRec) : Prop :=
  b.height < a.height ∨ (a.height = b.height ∧ b.fps ≤ a.fps)

/-- Descending order on the audio sort key `abr`: `a` may precede `b`. -/
def aGeKey (a b : ARec) : Prop := b.abr ≤ a.abr

/-- The key sequence of an envelope. -/
def keysOf (env : List (List Char × EnvVal)) : List (List Char) := env.map Prod.fst

/-- Characters a canonical YouTube video identifier is made of. -/
def goodIdChar (c : Char) : Bool := c.isAlphanum || c = '-' || c = '_'

/-! ## Concrete example data for witnesses and counterexamples -/

/-- A non-YouTube example URL, left unchanged by `cleanUrl`. -/
def exu : List Char := pstr "https://example.com/v"

/-- A muxed 720p stream (video and audio codecs both present). -/
def rawMux : RawFmt :=
  { format_id := some (pstr "22"), url := some (pstr "https://cdn.example/a")
    ext := some (pstr "mp4"), height := some 720, width := some 1280
    fps := some 30, vcodec := some (pstr "avc1.64001F")
    acodec := some (pstr "mp4a.40.2") }

/-- A video-only 1080p VP9 stream. -/
def rawVid : RawFmt :=
  { format_id := some (pstr "248"), url := some (pstr "https://cdn.example/b")
    ext := some (pstr "webm"), height := some 1080, width := some 1920
    fps := some 30, vcodec := some (pstr "vp9"), acodec := some (pstr "none") }

/-- A second stream with the same `(height, fps, vcodec)` as `rawVid` but a
different `format_id`. -/
def rawVid2 : RawFmt :=
  { format_id := some (pstr "616"), url := some (pstr "https://cdn.example/c")
    ext := some (pstr "webm"), height := some 1080, width := some 1920
    fps := some 30, vcodec := some (pstr "vp9"), acodec := some (pstr "none") }

/-- An audio-only Opus stream. -/
def rawAud : RawFmt :=
  { format_id := some (pstr "251"), url := some (pstr "https://cdn.example/d")
    ext := some (pstr "webm"), vcodec := some (pstr "none")
    acodec := some (pstr "opus"), abr := some 160, asr := some 48000 }

/-- A parsed JSON object with a small stream list. -/
def pjStreams : ParsedJson := { formats := some [rawMux, rawVid, rawVid2, rawAud] }

/-- The 2160p/60fps/vp9 descriptor of the spec's labeling example. -/
def raw4K : RawFmt := { height := some 2160, fps := some 60, vcodec := some (pstr "vp9") }

/-- The concrete module-entry-point command for `exu` (with
`sys.executable = "python3"`; `exu` is not a YouTube URL). -/
def exModuleCmd (u : List Char) : List (List Char) :=
  pstr "python3" :: pstr "-m" :: pstr "yt_dlp" :: ((attempt3Cmd u).drop 1)

/-- A world whose every subprocess call times out. -/
def wTimeout1 : World :=
  { run := fun _ => .timeout
    parse := fun _ => none
    pythonExe := pstr "python3"
    now := pstr "2026-01-01T00:00:00+00:00" }

/-- A world where the first attempt returns no output, the third (minimal)
attempt times out, and the module attempt would succeed. -/
def wLater : World :=
  { run := fun cmd =>
      if cmd = attempt3Cmd exu then .timeout
      else if cmd = exModuleCmd exu then .ok (pstr "\x7b\x7d") []
      else .ok [] []
    parse := fun line => if line = pstr "\x7b\x7d" then some pjStreams else none
    pythonExe := pstr "python3"
    now := pstr "2026-01-01T00:00:00+00:00" }

/-- A world where the main cascade is exhausted with a bot-detection marker
on stderr, the fallback's ios attempt times out, and its tv attempt
succeeds. -/
def wFb : World :=
  { run := fun cmd =>
      if cmd = exModuleCmd exu then .ok [] (pstr "Sign in to confirm you are not a bot")
      else if cmd = iosCmd exu then .timeout
      else if cmd = tvCmd exu then .ok (pstr "\x7b\x7d") []
      else .ok [] []
    parse := fun line => if line = pstr "\x7b\x7d" then some pjStreams else none
    pythonExe := pstr "python3"
    now := pstr "2026-01-01T00:00:00+00:00" }

/-- A world where every attempt produces no parseable output and the final
stderr carries the bot-detection marker, so the fallback also runs dry. -/
def wBot : World :=
  { run := fun cmd =>
      if cmd = exModuleCmd exu then .ok [] (pstr "Sign in to confirm you are not a bot")
      else .ok [] []
    parse := fun _ => none
    pythonExe := pstr "python3"
    now := pstr "2026-01-01T00:00:00+00:00" }

/-- A world where every attempt produces no parseable output and the final
stderr is ordinary noise. -/
def wExh : World :=
  { run := fun cmd =>
      if cmd = exModuleCmd exu then .ok [] (pstr "  boom failure  ")
      else .ok [] []
    parse := fun _ => none
    pythonExe := pstr "python3"
    now := pstr "2026-01-01T00:00:00+00:00" }

/-- A world whose first attempt immediately yields parseable JSON. -/
def wOk : World :=
  { run := fun _ => .ok (pstr "\x7b\x7d") []
    parse := fun line => if line = pstr "\x7b\x7d" then some pjStreams else none
    pythonExe := pstr "python3"
    now := pstr "2026-01-01T00:00:00+00:00" }


/-- The string encoding of a video dedup key tuple, as interpolated by
`f"{height}_{fps}_{vcodec}"`. -/
def encV (k : Nat × Nat × List Char) : List Char :=
  natToStr k.1 ++ pstr "_" ++ natToStr k.2.1 ++ pstr "_" ++ k.2.2

/-- The string encoding of an audio dedup key tuple, as interpolated by
`f"{abr}_{acodec}"`. -/
def encA (k : Nat × List Char) : List Char := natToStr k.1 ++ pstr "_" ++ k.2

/-! ## Sanity examples -/

example : cleanUrl (pstr "youtu.be/abc") = pstr "https://www.youtube.com/watch?v=abc" := by decide
example : cleanUrl (pstr "  'www.youtube.com/shorts/xyz?feature=share'  ") =
    pstr "https://www.youtube.com/watch?v=xyz" := by decide
example : cleanUrl (pstr "https://www.youtube.com/watch?v=abc&list=PL1&t=17") =
    pstr "https://www.youtube.com/watch?v=abc" := by decide
example : cleanUrl (pstr "example.com/v") = pstr "https://example.com/v" := by decide
example : formatBytes (some 1536) = some (pstr "1.5 KB") := by decide
example : formatBytes (some 500) = some (pstr "500.0 B") := by decide
example : formatBytes (some 0) = none := by decide
example : runYtDlpJson wOk exu 30 = .ok pjStreams := rfl
example : (uniqueVideos (formatsOf pjStreams)).map VRec.format_id = [pstr "248", pstr "22"] := by
  decide
example : (uniqueVideos (formatsOf pjStreams)).map VRec.quality_label =
    [pstr "1080p (VP9)", pstr "720p (H.264)"] := by decide
example : (uniqueAudios (formatsOf pjStreams)).map ARec.quality_label =
    [pstr "Opus 160kbps"] := by decide

/-! ## Envelope lookup lemmas -/

theorem envLookup_cons_eq (k : List Char) (v : EnvVal) (rest : List (List Char × EnvVal)) :
    envLookup k ((k, v) :: rest) = some v := by
  simp [envLookup]

theorem envLookup_cons_ne {k k' : List Char} (v : EnvVal) (rest : List (List Char × EnvVal))
    (h : k' ≠ k) : envLookup k ((k', v) :: rest) = envLookup k rest := by
  simp [envLookup, h]

/-! ## C8: the `fps == 60` branch is dead -/

/-- C8: the `elif fps == 60` branch of `_generate_quality_label` is inert:
the function agrees everywhere with the same function with that branch
removed, because `fps == 60` already satisfies the preceding `fps > 30`
condition. -/
theorem fps60_branch_inert (fmt : RawFmt) :
    generateQualityLabel fmt = generateQualityLabelNoSixty fmt := by
  unfold generateQualityLabel generateQualityLabelNoSixty
  by_cases h : fmt.fps.getD 0 ≠ 0 ∧ fmt.fps.getD 0 > 30
  · simp only [if_pos h]
  · have h60 : ¬ fmt.fps.getD 0 = 60 := by
      intro he
      exact h ⟨by omega, by omega⟩
    simp only [if_neg h, if_neg h60]

/-! ## C7: the quality label matches the spec's reference definition -/

/-- C7: `_generate_quality_label` computes exactly the label of the spec's
reference definition (threshold resolution, `fps > 30` suffix,
case-insensitive codec tag), and in particular maps height 2160, fps 60,
vcodec "vp9" to `"4K60fps (VP9)"`. -/
theorem quality_label_matches_spec :
    (∀ fmt, generateQualityLabel fmt = specQualityLabel fmt) ∧
    generateQualityLabel raw4K = pstr "4K60fps (VP9)" := by
  constructor
  · intro fmt
    unfold generateQualityLabel specQualityLabel
    have hfps : (fmt.fps.getD 0 ≠ 0 ∧ fmt.fps.getD 0 > 30) ↔ fmt.fps.getD 0 > 30 := by omega
    by_cases hf : fmt.fps.getD 0 > 30
    · by_cases hv : fmt.vcodec.getD [] ≠ [] ∧ fmt.vcodec.getD [] ≠ pstr "none"
      · simp only [hfps, if_pos hf, if_pos hv]
      · have hdis : fmt.vcodec.getD [] = [] ∨ fmt.vcodec.getD [] = pstr "none" := by
          rcases Classical.em (fmt.vcodec.getD [] = []) with h | h
          · exact Or.inl h
          · exact Or.inr (Classical.byContradiction fun h2 => hv ⟨h, h2⟩)
        rcases hdis with h | h <;>
          simp [hfps, if_pos hf, if_neg hv, h,
            show occursIn (pstr "vp9") (lowerStr []) = false from rfl,
            show occursIn (pstr "avc") (lowerStr []) = false from rfl,
            show occursIn (pstr "av1") (lowerStr []) = false from rfl,
            show occursIn (pstr "vp9") (lowerStr (pstr "none")) = false from rfl,
            show occursIn (pstr "avc") (lowerStr (pstr "none")) = false from rfl,
            show occursIn (pstr "av1") (lowerStr (pstr "none")) = false from rfl]
    · have h60 : ¬ fmt.fps.getD 0 = 60 := by omega
      by_cases hv : fmt.vcodec.getD [] ≠ [] ∧ fmt.vcodec.getD [] ≠ pstr "none"
      · simp only [hfps, if_neg hf, if_neg h60, if_pos hv]
      · have hdis : fmt.vcodec.getD [] = [] ∨ fmt.vcodec.getD [] = pstr "none" := by
          rcases Classical.em (fmt.vcodec.getD [] = []) with h | h
          · exact Or.inl h
          · exact Or.inr (Classical.byContradiction fun h2 => hv ⟨h, h2⟩)
        rcases hdis with h | h <;>
          simp [hfps, if_neg hf, if_neg h60, if_neg hv, h,
            show occursIn (pstr "vp9") (lowerStr []) = false from rfl,
            show occursIn (pstr "avc") (lowerStr []) = false from rfl,
            show occursIn (pstr "av1") (lowerStr []) = false from rfl,
            show occursIn (pstr "vp9") (lowerStr (pstr "none")) = false from rfl,
            show occursIn (pstr "avc") (lowerStr (pstr "none")) = false from rfl,
            show occursIn (pstr "av1") (lowerStr (pstr "none")) = false from rfl]
  · decide

/-! ## C9: failures are returned as envelopes -/

/-- C9: `extract` never raises: whenever the invocation cascade fails with
any exception, the returned envelope has `success: false`, the error
message, empty video info, empty stream lists, and the populated
timestamp. -/
theorem failure_envelope (w : World) (url : List Char) (t : Nat) (e : List Char)
    (h : runYtDlpJson w url t = .error e) :
    extract w url t =
      [(pstr "success", .j (J.b false)),
       (pstr "error", .j (J.str e)),
       (pstr "video_info", .j (J.obj [])),
       (pstr "video_formats", .vlist []),
       (pstr "audio_formats", .alist []),
       (pstr "extraction_time", .j (J.str w.now))] := by
  unfold extract
  rw [h]

/-- Witness: the all-timeouts world produces exactly the failure envelope. -/
theorem failure_envelope_witness :
    extract wTimeout1 exu 30 =
      [(pstr "success", .j (J.b false)),
       (pstr "error", .j (J.str (timeoutMsg 30))),
       (pstr "video_info", .j (J.obj [])),
       (pstr "video_formats", .vlist []),
       (pstr "audio_formats", .alist []),
       (pstr "extraction_time", .j (J.str wTimeout1.now))] :=
  failure_envelope wTimeout1 exu 30 (timeoutMsg 30) rfl

/-! ## C10: exact envelope key sets -/

/-- C10: a failure envelope contains exactly the keys `success`, `error`,
`video_info`, `video_formats`, `audio_formats`, `extraction_time`; a
success envelope contains exactly `success`, `video_info`,
`video_formats`, `audio_formats`, `total_video_formats`,
`total_audio_formats`, `extraction_time` — in particular failure envelopes
omit the two `total_*` keys every success envelope carries. -/
theorem envelope_keys (w : World) (url : List Char) (t : Nat) :
    keysOf (extract w url t) =
      match runYtDlpJson w url t with
      | .ok _ =>
        [pstr "success", pstr "video_info", pstr "video_formats", pstr "audio_formats",
         pstr "total_video_formats", pstr "total_audio_formats", pstr "extraction_time"]
      | .error _ =>
        [pstr "success", pstr "error", pstr "video_info", pstr "video_formats",
         pstr "audio_formats", pstr "extraction_time"] := by
  unfold extract keysOf
  cases runYtDlpJson w url t <;> rfl

/-! ## C6: per-stream classification -/

/-- C6: for a raw stream with a usable URL, `has_video` holds iff the
video-codec field is present and not `"none"` (likewise `has_audio`); the
stream yields a video record exactly when `has_video`, whose `is_adaptive`
is true exactly when not both codecs are present; and it yields an audio
record (always adaptive) exactly when `has_audio` and not `has_video`. -/
theorem stream_classification (fmt : RawFmt) (u : List Char)
    (h : extractFormatUrl fmt = some u) :
    (hasVideoF fmt = true ↔ ∃ s, fmt.vcodec = some s ∧ s ≠ pstr "none") ∧
    (hasAudioF fmt = true ↔ ∃ s, fmt.acodec = some s ∧ s ≠ pstr "none") ∧
    ((vEntry? fmt).isSome = true ↔ hasVideoF fmt = true) ∧
    (∀ v, vEntry? fmt = some v → v.is_adaptive = !(hasVideoF fmt && hasAudioF fmt)) ∧
    ((aEntry? fmt).isSome = true ↔ hasVideoF fmt = false ∧ hasAudioF fmt = true) ∧
    (∀ a, aEntry? fmt = some a → a.is_adaptive = true) := by
  refine ⟨?_, ?_, ?_, ?_, ?_, ?_⟩
  · unfold hasVideoF
    cases hc : fmt.vcodec with
    | none => simp
    | some s => simp [bne_iff_ne]
  · unfold hasAudioF
    cases hc : fmt.acodec with
    | none => simp
    | some s => simp [bne_iff_ne]
  · simp only [vEntry?, h]
    cases hb : hasVideoF fmt <;> simp [hb]
  · intro v hv
    simp only [vEntry?, h] at hv
    cases hb : hasVideoF fmt
    · simp [hb] at hv
    · simp only [hb, if_true, eq_self_iff_true, Option.some.injEq] at hv
      subst hv
      rfl
  · simp only [aEntry?, h]
    cases hb : (hasAudioF fmt && !hasVideoF fmt)
    · simp only [Bool.false_eq_true, if_false, Option.isSome_none, false_iff, not_and]
      intro h1 h2
      rw [Bool.and_eq_false_iff] at hb
      rcases hb with hb | hb
      · rw [hb] at h2
        cases h2
      · rw [h1] at hb
        simp at hb
    · simp only [if_true, eq_self_iff_true, Option.isSome_some, true_iff]
      rcases (Bool.and_eq_true _ _).mp hb with ⟨h1, h2⟩
      exact ⟨by simpa using h2, h1⟩
  · intro a ha
    simp only [aEntry?, h] at ha
    cases hb : (hasAudioF fmt && !hasVideoF fmt)
    · simp [hb] at ha
    · simp only [hb, if_true, eq_self_iff_true, Option.some.injEq] at ha
      subst ha
      rfl

/-- Witness for the classification claim at the concrete video-only
stream `rawVid`. -/
theorem stream_classification_witness :
    (hasVideoF rawVid = true ↔ ∃ s, rawVid.vcodec = some s ∧ s ≠ pstr "none") ∧
    (hasAudioF rawVid = true ↔ ∃ s, rawVid.acodec = some s ∧ s ≠ pstr "none") ∧
    ((vEntry? rawVid).isSome = true ↔ hasVideoF rawVid = true) ∧
    (∀ v, vEntry? rawVid = some v → v.is_adaptive = !(hasVideoF rawVid && hasAudioF rawVid)) ∧
    ((aEntry? rawVid).isSome = true ↔ hasVideoF rawVid = false ∧ hasAudioF rawVid = true) ∧
    (∀ a, aEntry? rawVid = some a → a.is_adaptive = true) :=
  stream_classification rawVid (pstr "https://cdn.example/b") rfl

/-! ## C1: timeout behaviour of the cascade -/

/-- C1 counterexample: a timeout on a *later* (non-first) main-cascade
attempt does not fall through to the next profile — it aborts the whole
invocation with the timeout error.  In `wLater` the first attempt returns
unparseable output, the third (minimal-profile) attempt times out, and the
module attempt would have succeeded with parseable JSON, yet the call
fails with the timeout message instead of returning that JSON. -/
theorem later_timeout_aborts :
    wLater.run (attempt1Cmd (cleanUrl exu)) = .ok [] [] ∧
    wLater.run (attempt3Cmd (cleanUrl exu)) = .timeout ∧
    wLater.run (exModuleCmd (cleanUrl exu)) = .ok (pstr "\x7b\x7d") [] ∧
    wLater.parse (firstLine (pstr "\x7b\x7d")) = some pjStreams ∧
    runYtDlpJson wLater exu 30 = .error (timeoutMsg 30) ∧
    runYtDlpJson wLater exu 30 ≠ .ok pjStreams := by
  refine ⟨rfl, rfl, rfl, rfl, rfl, ?_⟩
  intro hcontra
  rw [show runYtDlpJson wLater exu 30 = .error (timeoutMsg 30) from rfl] at hcontra
  cases hcontra

/-- C1 (amended): a timeout on the *first* attempt aborts the whole call
with the timeout error; but so does a timeout on any later main-cascade
attempt (shown here for the third attempt of the non-YouTube cascade) —
only the attempts inside the dedicated bot-detection fallback swallow
their timeouts, with the fallback cascade proceeding to its next profile. -/
theorem timeout_abort_behavior :
    (∀ (w : World) (url : List Char) (t : Nat),
        w.run (attempt1Cmd (cleanUrl url)) = .timeout →
        runYtDlpJson w url t = .error (timeoutMsg t)) ∧
    (∀ (w : World) (url : List Char) (t : Nat) (o1 e1 : List Char),
        isYt (cleanUrl url) = false →
        w.run (attempt1Cmd (cleanUrl url)) = .ok o1 e1 →
        tryParse w o1 = none →
        w.run (attempt3Cmd (cleanUrl url)) = .timeout →
        runYtDlpJson w url t = .error (timeoutMsg t)) ∧
    (∀ (w : World) (u : List Char) (o e : List Char) (j : ParsedJson),
        w.run (iosCmd u) = .timeout →
        w.run (tvCmd u) = .ok o e →
        tryParse w o = some j →
        fallbackExtraction w u = .ok j) := by
  refine ⟨?_, ?_, ?_⟩
  · intro w url t h
    unfold runYtDlpJson
    simp only [h]
  · intro w url t o1 e1 hyt h1 p1 h3
    unfold runYtDlpJson runStep2 runStep3
    simp [h1, p1, hyt, h3]
  · intro w u o e j hios htv hp
    unfold fallbackExtraction fallbackTv
    simp [hios, htv, hp]

/-- Witness for the three parts of the amended timeout behaviour, at
concrete worlds. -/
theorem timeout_abort_behavior_witness :
    runYtDlpJson wTimeout1 exu 30 = .error (timeoutMsg 30) ∧
    runYtDlpJson wLater exu 30 = .error (timeoutMsg 30) ∧
    fallbackExtraction wFb exu = .ok pjStreams :=
  ⟨timeout_abort_behavior.1 wTimeout1 exu 30 rfl,
   timeout_abort_behavior.2.1 wLater exu 30 [] [] rfl rfl rfl rfl,
   timeout_abort_behavior.2.2 wFb exu (pstr "\x7b\x7d") [] pjStreams rfl rfl rfl⟩

/-! ## C2: the exhaustion diagnostic -/

/-- C2 counterexample: when every attempt fails to produce a parseable
line but the final stderr carries the `Sign in to confirm` marker, the
invocation goes through the bot-detection fallback and (on its
exhaustion) raises the fixed bot-detection message, which does not carry
the (nonempty) stderr diagnostic at all. -/
theorem exhaustion_message_counterexample :
    wBot.run (exModuleCmd exu) = .ok [] (pstr "Sign in to confirm you are not a bot") ∧
    runYtDlpJson wBot exu 30 =
      .error (pstr "yt-dlp error: YouTube bot detection - try again later or use a different video") ∧
    occursIn (pstr "Sign in to confirm")
      (pstr "yt-dlp error: YouTube bot detection - try again later or use a different video")
      = false := by
  exact ⟨rfl, rfl, by decide⟩

/-- C2 (amended): when every attempt profile fails to produce a parseable
first stdout line *and* the final attempt's stderr does not contain the
bot-detection marker, the invocation fails with a message embedding the
final attempt's trimmed stderr — or the `No output from yt-dlp` sentinel
when that stderr is empty — truncated to at most 200 characters. -/
theorem exhaustion_message (w : World) (url : List Char) (t : Nat)
    (o1 e1 o2 e2 o3 e3 o4 e4 o5 e5 : List Char)
    (h1 : w.run (attempt1Cmd (cleanUrl url)) = .ok o1 e1) (p1 : tryParse w o1 = none)
    (h2 : w.run (attempt2Cmd (cleanUrl url)) = .ok o2 e2) (p2 : tryParse w o2 = none)
    (h3 : w.run (attempt3Cmd (cleanUrl url)) = .ok o3 e3) (p3 : tryParse w o3 = none)
    (h4 : w.run (attempt4Cmd (cleanUrl url)) = .ok o4 e4) (p4 : tryParse w o4 = none)
    (h5 : w.run (moduleCmd w (cleanUrl url)) = .ok o5 e5) (p5 : tryParse w o5 = none)
    (hm : occursIn (pstr "Sign in to confirm")
            (if e5 ≠ [] then pyStrip wsSet e5 else pstr "No output from yt-dlp") = false) :
    runYtDlpJson w url t =
      .error (pstr "yt-dlp error: yt-dlp failed: " ++
        List.take 200 (if e5 ≠ [] then pyStrip wsSet e5 else pstr "No output from yt-dlp")) ∧
    (List.take 200 (if e5 ≠ [] then pyStrip wsSet e5 else pstr "No output from yt-dlp")).length
      ≤ 200 := by
  have hm' : occursIn (pstr "Sign in to confirm")
      (if e5 = [] then pstr "No output from yt-dlp" else pyStrip wsSet e5) = false := by
    by_cases he : e5 = []
    · simpa [he] using hm
    · simpa [he] using hm
  constructor
  · unfold runYtDlpJson runStep2 runStep3 runStep4 runStep5
    by_cases hyt : isYt (cleanUrl url) = true
    · simp [h1, p1, hyt, h2, p2, h3, p3, h4, p4, h5, p5, hm']
    · simp only [Bool.not_eq_true] at hyt
      simp [h1, p1, hyt, h3, p3, h5, p5, hm']
  · exact List.length_take_le 200 _

/-- Witness for the amended exhaustion diagnostic at the concrete world
`wExh`, whose final stderr is `"  boom failure  "`. -/
theorem exhaustion_message_witness :
    runYtDlpJson wExh exu 30 =
      .error (pstr "yt-dlp error: yt-dlp failed: " ++
        List.take 200 (if (pstr "  boom failure  ") ≠ []
          then pyStrip wsSet (pstr "  boom failure  ")
          else pstr "No output from yt-dlp")) ∧
    (List.take 200 (if (pstr "  boom failure  ") ≠ []
        then pyStrip wsSet (pstr "  boom failure  ")
        else pstr "No output from yt-dlp")).length ≤ 200 :=
  exhaustion_message wExh exu 30 [] [] [] [] [] [] [] [] [] (pstr "  boom failure  ")
    rfl rfl rfl rfl rfl rfl rfl rfl rfl rfl (by decide)

/-! ## Sorting and deduplication lemmas -/

theorem mem_insDesc {V : Type} (gtB : V → V → Bool) (x z : V) :
    ∀ l : List V, z ∈ insDesc gtB x l ↔ z = x ∨ z ∈ l := by
  intro l
  induction l with
  | nil => simp [insDesc]
  | cons y ys ih =>
    unfold insDesc
    by_cases h : gtB x y = true
    · rw [if_pos h]
      simp [or_comm, or_left_comm]
    · rw [if_neg h]
      simp [ih]
      tauto

theorem insDesc_pairwise {V : Type} (gtB : V → V → Bool)
    (Htrans : ∀ a b c, gtB a b = true → gtB b c = true → gtB a c = true)
    (Hanti : ∀ a b, gtB a b = true → gtB b a = false) (x : V) :
    ∀ l : List V, l.Pairwise (fun a b => gtB b a = false) →
      (insDesc gtB x l).Pairwise (fun a b => gtB b a = false) := by
  intro l
  induction l with
  | nil => intro _; simp [insDesc]
  | cons y ys ih =>
    intro hp
    obtain ⟨hy, hys⟩ := List.pairwise_cons.mp hp
    unfold insDesc
    by_cases hgt : gtB x y = true
    · rw [if_pos hgt]
      refine List.Pairwise.cons ?_ (List.Pairwise.cons hy hys)
      intro z hz
      rcases List.mem_cons.mp hz with rfl | hz'
      · exact Hanti _ _ hgt
      · by_contra hzx
        rw [Bool.not_eq_false] at hzx
        have hzy : gtB z y = true := Htrans _ _ _ hzx hgt
        rw [hy z hz'] at hzy
        cases hzy
    · rw [if_neg hgt]
      refine List.Pairwise.cons ?_ (ih hys)
      intro z hz
      rcases (mem_insDesc gtB x z ys).mp hz with rfl | hz'
      · exact Bool.not_eq_true _ ▸ hgt
      · exact hy z hz'

theorem foldl_insDesc_pairwise {V : Type} (gtB : V → V → Bool)
    (Htrans : ∀ a b c, gtB a b = true → gtB b c = true → gtB a c = true)
    (Hanti : ∀ a b, gtB a b = true → gtB b a = false) :
    ∀ (l acc : List V), acc.Pairwise (fun a b => gtB b a = false) →
      (List.foldl (fun acc x => insDesc gtB x acc) acc l).Pairwise
        (fun a b => gtB b a = false) := by
  intro l
  induction l with
  | nil => intro acc h; exact h
  | cons x xs ih =>
    intro acc h
    exact ih (insDesc gtB x acc) (insDesc_pairwise gtB Htrans Hanti x acc h)

theorem pySortDesc_pairwise {V : Type} (gtB : V → V → Bool)
    (Htrans : ∀ a b c, gtB a b = true → gtB b c = true → gtB a c = true)
    (Hanti : ∀ a b, gtB a b = true → gtB b a = false) (l : List V) :
    (pySortDesc gtB l).Pairwise (fun a b => gtB b a = false) :=
  foldl_insDesc_pairwise gtB Htrans Hanti l [] List.Pairwise.nil

theorem filter_insDesc {V K : Type} [DecidableEq K] (gtB : V → V → Bool) (κ : V → K)
    (k : K)
    (Hsame : ∀ v w z, κ v = κ w → gtB v z = gtB w z)
    (Hanti : ∀ a b, gtB a b = true → gtB b a = false) (x : V) :
    ∀ l : List V, l.Pairwise (fun a b => gtB b a = false) →
      (insDesc gtB x l).filter (fun v => decide (κ v = k)) =
        if κ x = k then l.filter (fun v => decide (κ v = k)) ++ [x]
        else l.filter (fun v => decide (κ v = k)) := by
  intro l
  induction l with
  | nil =>
    intro _
    by_cases hk : κ x = k <;> simp [insDesc, List.filter_cons, hk]
  | cons y ys ih =>
    intro hp
    obtain ⟨hy, hys⟩ := List.pairwise_cons.mp hp
    unfold insDesc
    by_cases hgt : gtB x y = true
    · rw [if_pos hgt]
      by_cases hk : κ x = k
      · have hfil : (y :: ys).filter (fun v => decide (κ v = k)) = [] := by
          rw [List.filter_eq_nil_iff]
          intro a ha
          simp only [decide_eq_true_eq]
          intro hak
          have hax : κ a = κ x := hak.trans hk.symm
          have hthis : gtB a y = true := (Hsame a x y hax) ▸ hgt
          rcases List.mem_cons.mp ha with rfl | ha'
          · have hf := Hanti a a hthis
            rw [hf] at hthis
            cases hthis
          · have hf := hy a ha'
            rw [hf] at hthis
            cases hthis
        simp [List.filter_cons, hk, hfil]
      · simp [List.filter_cons, hk]
    · rw [if_neg hgt]
      by_cases hky : κ y = k <;> by_cases hk : κ x = k <;>
        simp [List.filter_cons, hky, hk, ih hys]

theorem filter_foldl_insDesc {V K : Type} [DecidableEq K] (gtB : V → V → Bool) (κ : V → K)
    (k : K)
    (Hsame : ∀ v w z, κ v = κ w → gtB v z = gtB w z)
    (Htrans : ∀ a b c, gtB a b = true → gtB b c = true → gtB a c = true)
    (Hanti : ∀ a b, gtB a b = true → gtB b a = false) :
    ∀ (l acc : List V), acc.Pairwise (fun a b => gtB b a = false) →
      (List.foldl (fun acc x => insDesc gtB x acc) acc l).filter (fun v => decide (κ v = k)) =
        acc.filter (fun v => decide (κ v = k)) ++ l.filter (fun v => decide (κ v = k)) := by
  intro l
  induction l with
  | nil => intro acc _; simp
  | cons x xs ih =>
    intro acc h
    have hstep := ih (insDesc gtB x acc) (insDesc_pairwise gtB Htrans Hanti x acc h)
    rw [List.foldl_cons, hstep, filter_insDesc gtB κ k Hsame Hanti x acc h]
    by_cases hk : κ x = k <;> simp [List.filter_cons, hk]

theorem filter_pySortDesc {V K : Type} [DecidableEq K] (gtB : V → V → Bool) (κ : V → K)
    (k : K)
    (Hsame : ∀ v w z, κ v = κ w → gtB v z = gtB w z)
    (Htrans : ∀ a b c, gtB a b = true → gtB b c = true → gtB a c = true)
    (Hanti : ∀ a b, gtB a b = true → gtB b a = false) (l : List V) :
    (pySortDesc gtB l).filter (fun v => decide (κ v = k)) =
      l.filter (fun v => decide (κ v = k)) := by
  have := filter_foldl_insDesc gtB κ k Hsame Htrans Hanti l [] List.Pairwise.nil
  simpa [pySortDesc] using this

theorem find?_eq_head?_filter {V : Type} (p : V → Bool) :
    ∀ l : List V, l.find? p = (l.filter p).head? := by
  intro l
  induction l with
  | nil => rfl
  | cons a l ih =>
    by_cases h : p a = true
    · rw [List.find?_cons_of_pos _ h, List.filter_cons, if_pos h]
      rfl
    · rw [List.find?_cons_of_neg _ h, List.filter_cons, if_neg h, ih]

theorem filter_dedupAux {V K : Type} [DecidableEq K] (κ : V → K) (k : K) :
    ∀ (xs : List V) (seen : List K),
      (dedupAux κ seen xs).filter (fun v => decide (κ v = k)) =
        if k ∈ seen then [] else (xs.find? (fun v => decide (κ v = k))).toList := by
  intro xs
  induction xs with
  | nil => intro seen; simp [dedupAux]
  | cons v vs ih =>
    intro seen
    unfold dedupAux
    by_cases hseen : κ v ∈ seen
    · rw [if_pos hseen, ih]
      by_cases hk : κ v = k
      · have hks : k ∈ seen := hk ▸ hseen
        simp [hks]
      · rw [List.find?_cons_of_neg]
        simp only [decide_eq_true_eq]
        exact hk
    · rw [if_neg hseen, List.filter_cons]
      by_cases hk : κ v = k
      · have hknot : ¬ k ∈ seen := by rw [← hk]; exact hseen
        have hmem : k ∈ κ v :: seen := by rw [← hk]; exact List.mem_cons_self _ _
        rw [ih]
        rw [List.find?_cons_of_pos]
        · simp [hk, hknot, hmem]
        · simp [hk]
      · rw [ih, List.find?_cons_of_neg]
        · have hdec : decide (κ v = k) = false := by simp [hk]
          rw [hdec]
          simp only [Bool.false_eq_true, if_false]
          by_cases hks : k ∈ seen
          · have hmem : k ∈ κ v :: seen := List.mem_cons.mpr (Or.inr hks)
            simp [hks, hmem]
          · have hnot : ¬ k ∈ κ v :: seen := by
              simp only [List.mem_cons]
              rintro (h | h)
              · exact hk h.symm
              · exact hks h
            simp [hks, hnot]
        · simp only [decide_eq_true_eq]
          exact hk

theorem dedupAux_sublist {V K : Type} [DecidableEq K] (κ : V → K) :
    ∀ (xs : List V) (seen : List K), (dedupAux κ seen xs).Sublist xs := by
  intro xs
  induction xs with
  | nil => intro seen; exact List.Sublist.refl _
  | cons v vs ih =>
    intro seen
    unfold dedupAux
    by_cases h : κ v ∈ seen
    · rw [if_pos h]
      exact List.Sublist.cons v (ih seen)
    · rw [if_neg h]
      exact List.Sublist.cons₂ v (ih (κ v :: seen))

/-! ## Decimal interpolation lemmas -/

theorem natToStr_small {n : Nat} (h : n < 10) :
    natToStr n = [Char.ofNat (48 + n % 10)] := by
  unfold natToStr natToStrCore
  simp [h]

theorem natToStrCore_append (n : Nat) : ∀ fuel acc, n < fuel →
    natToStrCore fuel n acc = natToStr n ++ acc := by
  induction n using Nat.strong_induction_on with
  | _ n ih =>
    intro fuel acc hlt
    obtain ⟨f, rfl⟩ : ∃ f, fuel = f + 1 := ⟨fuel - 1, by omega⟩
    show natToStrCore (f + 1) n acc = natToStr n ++ acc
    unfold natToStrCore
    by_cases h10 : n < 10
    · rw [if_pos h10, natToStr_small h10]
      rfl
    · rw [if_neg h10]
      have hdn : n / 10 < n := Nat.div_lt_self (by omega) (by omega)
      rw [ih (n / 10) hdn f _ (by omega)]
      have hbig : natToStr n = natToStr (n / 10) ++ [Char.ofNat (48 + n % 10)] := by
        show natToStrCore (n + 1) n [] = _
        unfold natToStrCore
        rw [if_neg h10]
        exact ih (n / 10) hdn n _ (by omega)
      rw [hbig, List.append_assoc]
      rfl

theorem natToStr_large {n : Nat} (h : 10 ≤ n) :
    natToStr n = natToStr (n / 10) ++ [Char.ofNat (48 + n % 10)] := by
  show natToStrCore (n + 1) n [] = _
  unfold natToStrCore
  rw [if_neg (by omega)]
  have hdn : n / 10 < n := Nat.div_lt_self (by omega) (by omega)
  rw [natToStrCore_append (n / 10) n _ (by omega)]

theorem digitChar_ne_und {m : Nat} (h : m < 10) : Char.ofNat (48 + m) ≠ '_' := by
  interval_cases m <;> decide

theorem digitChar_inj {a b : Nat} (ha : a < 10) (hb : b < 10) :
    Char.ofNat (48 + a) = Char.ofNat (48 + b) → a = b := by
  interval_cases a <;> interval_cases b <;> decide

theorem natToStr_ne_nil (n : Nat) : natToStr n ≠ [] := by
  by_cases h : n < 10
  · rw [natToStr_small h]
    exact List.cons_ne_nil _ _
  · rw [natToStr_large (by omega)]
    simp

theorem natToStr_no_und (n : Nat) : '_' ∉ natToStr n := by
  induction n using Nat.strong_induction_on with
  | _ n ih =>
    by_cases h : n < 10
    · rw [natToStr_small h]
      intro hmem
      exact digitChar_ne_und (Nat.mod_lt _ (by omega)) (List.mem_singleton.mp hmem).symm
    · rw [natToStr_large (by omega)]
      intro hmem
      rcases List.mem_append.mp hmem with hmem | hmem
      · exact ih (n / 10) (Nat.div_lt_self (by omega) (by omega)) hmem
      · exact digitChar_ne_und (Nat.mod_lt _ (by omega)) (List.mem_singleton.mp hmem).symm

theorem append_singleton_inj {x y : List Char} {a b : Char}
    (h : x ++ [a] = y ++ [b]) : x = y ∧ a = b := by
  have hr := congrArg List.reverse h
  simp only [List.reverse_append, List.reverse_cons, List.reverse_nil,
    List.nil_append, List.singleton_append] at hr
  obtain ⟨hab, hxy⟩ := List.cons.injEq .. ▸ hr
  exact ⟨List.reverse_inj.mp (by rw [hxy]), hab⟩

theorem natToStr_inj : ∀ m n : Nat, natToStr m = natToStr n → m = n := by
  intro m
  induction m using Nat.strong_induction_on with
  | _ m ih =>
    intro n h
    by_cases hm : m < 10 <;> by_cases hn : n < 10
    · rw [natToStr_small hm, natToStr_small hn] at h
      simp only [List.cons.injEq, and_true] at h
      have := digitChar_inj (Nat.mod_lt _ (by omega)) (Nat.mod_lt _ (by omega)) h
      omega
    · exfalso
      rw [natToStr_small hm, @natToStr_large n (by omega)] at h
      have hlen := congrArg List.length h
      simp only [List.length_cons, List.length_nil, List.length_append] at hlen
      have := List.length_pos.mpr (natToStr_ne_nil (n / 10))
      omega
    · exfalso
      rw [@natToStr_large m (by omega), natToStr_small hn] at h
      have hlen := congrArg List.length h
      simp only [List.length_cons, List.length_nil, List.length_append] at hlen
      have := List.length_pos.mpr (natToStr_ne_nil (m / 10))
      omega
    · rw [@natToStr_large m (by omega), @natToStr_large n (by omega)] at h
      obtain ⟨h1, h2⟩ := append_singleton_inj h
      have hdiv : m / 10 = n / 10 :=
        ih (m / 10) (Nat.div_lt_self (by omega) (by omega)) (n / 10) h1
      have hmod := digitChar_inj (Nat.mod_lt _ (by omega)) (Nat.mod_lt _ (by omega)) h2
      omega

theorem und_split : ∀ (u v a b : List Char), '_' ∉ u → '_' ∉ v →
    u ++ '_' :: a = v ++ '_' :: b → u = v ∧ a = b := by
  intro u
  induction u with
  | nil =>
    intro v a b _ hv h
    cases v with
    | nil => simpa using h
    | cons c cs =>
      exfalso
      simp only [List.nil_append, List.cons_append, List.cons.injEq] at h
      exact hv (h.1 ▸ List.mem_cons_self _ _)
  | cons c cs ih =>
    intro v a b hu hv h
    cases v with
    | nil =>
      exfalso
      simp only [List.cons_append, List.nil_append, List.cons.injEq] at h
      exact hu (h.1 ▸ List.mem_cons_self _ _)
    | cons d ds =>
      simp only [List.cons_append, List.cons.injEq] at h
      obtain ⟨rfl, h2⟩ := h
      have hu' : '_' ∉ cs := fun hx => hu (List.mem_cons_of_mem _ hx)
      have hv' : '_' ∉ ds := fun hx => hv (List.mem_cons_of_mem _ hx)
      obtain ⟨he, ha⟩ := ih ds a b hu' hv' h2
      exact ⟨by rw [he], ha⟩

theorem encV_inj {k1 k2 : Nat × Nat × List Char} (h : encV k1 = encV k2) : k1 = k2 := by
  obtain ⟨a1, b1, c1⟩ := k1
  obtain ⟨a2, b2, c2⟩ := k2
  have hu : pstr "_" = ['_'] := rfl
  simp only [encV, hu, List.append_assoc, List.singleton_append] at h
  obtain ⟨e1, rest⟩ := und_split _ _ _ _ (natToStr_no_und a1) (natToStr_no_und a2) h
  obtain ⟨e2, e3⟩ := und_split _ _ _ _ (natToStr_no_und b1) (natToStr_no_und b2) rest
  rw [natToStr_inj _ _ e1, natToStr_inj _ _ e2, e3]

theorem encA_inj {k1 k2 : Nat × List Char} (h : encA k1 = encA k2) : k1 = k2 := by
  obtain ⟨a1, c1⟩ := k1
  obtain ⟨a2, c2⟩ := k2
  have hu : pstr "_" = ['_'] := rfl
  simp only [encA, hu, List.append_assoc, List.singleton_append] at h
  obtain ⟨e1, e2⟩ := und_split _ _ _ _ (natToStr_no_und a1) (natToStr_no_und a2) h
  rw [natToStr_inj _ _ e1, e2]

theorem keyV_eq_parts {v w : VRec} (h : keyV v = keyV w) :
    v.height = w.height ∧ v.fps = w.fps ∧ v.vcodec = w.vcodec := by
  have hh := encV_inj (show encV (tkeyV v) = encV (tkeyV w) from h)
  simp only [tkeyV, Prod.mk.injEq] at hh
  exact hh

theorem keyA_eq_parts {a b : ARec} (h : keyA a = keyA b) :
    a.abr = b.abr ∧ a.acodec = b.acodec := by
  have hh := encA_inj (show encA (tkeyA a) = encA (tkeyA b) from h)
  simp only [tkeyA, Prod.mk.injEq] at hh
  exact hh

/-! ## C4: deduplication keeps the first raw occurrence per composite key -/

/-- C4: video streams are deduplicated by the composite key
`(height, fps, videoCodec)` and audio streams by `(bitrate, audioCodec)`;
for each key the surviving entry is exactly the first occurrence, in the
processing order of the raw input, of a stream with that key (the stable
sort preserves the relative order of key-equal entries, so dedup-after-sort
keeps the first raw occurrence), and all later entries with the same key
are discarded. -/
theorem dedup_first_occurrence (raws : List RawFmt) (kv : Nat × Nat × List Char)
    (ka : Nat × List Char) :
    (uniqueVideos raws).filter (fun v => decide (tkeyV v = kv)) =
      ((videoFormatsOf raws).find? (fun v => decide (tkeyV v = kv))).toList ∧
    (uniqueAudios raws).filter (fun a => decide (tkeyA a = ka)) =
      ((audioFormatsOf raws).find? (fun a => decide (tkeyA a = ka))).toList := by
  constructor
  · have hfun : (fun v : VRec => decide (tkeyV v = kv)) =
        fun v => decide (keyV v = encV kv) := by
      funext v
      rw [decide_eq_decide]
      constructor
      · intro hh
        rw [show keyV v = encV (tkeyV v) from rfl, hh]
      · intro hh
        exact encV_inj (show encV (tkeyV v) = encV kv from hh)
    have Hsame : ∀ v w z : VRec, keyV v = keyV w → gtV v z = gtV w z := by
      intro v w z hh
      obtain ⟨e1, e2, _⟩ := keyV_eq_parts hh
      simp [gtV, e1, e2]
    have Htrans : ∀ a b c : VRec, gtV a b = true → gtV b c = true → gtV a c = true := by
      intro a b c hab hbc
      simp only [gtV, decide_eq_true_eq] at hab hbc ⊢
      omega
    have Hanti : ∀ a b : VRec, gtV a b = true → gtV b a = false := by
      intro a b hab
      simp only [gtV, decide_eq_true_eq] at hab
      simp only [gtV, decide_eq_false_iff_not]
      omega
    rw [hfun]
    unfold uniqueVideos dedupKeyed
    rw [filter_dedupAux keyV (encV kv) _ []]
    simp only [List.not_mem_nil, if_false]
    rw [find?_eq_head?_filter, find?_eq_head?_filter,
      filter_pySortDesc gtV keyV (encV kv) Hsame Htrans Hanti]
  · have hfun : (fun a : ARec => decide (tkeyA a = ka)) =
        fun a => decide (keyA a = encA ka) := by
      funext a
      rw [decide_eq_decide]
      constructor
      · intro hh
        rw [show keyA a = encA (tkeyA a) from rfl, hh]
      · intro hh
        exact encA_inj (show encA (tkeyA a) = encA ka from hh)
    have Hsame : ∀ a b z : ARec, keyA a = keyA b → gtA a z = gtA b z := by
      intro a b z hh
      obtain ⟨e1, _⟩ := keyA_eq_parts hh
      simp [gtA, e1]
    have Htrans : ∀ a b c : ARec, gtA a b = true → gtA b c = true → gtA a c = true := by
      intro a b c hab hbc
      simp only [gtA, decide_eq_true_eq] at hab hbc ⊢
      omega
    have Hanti : ∀ a b : ARec, gtA a b = true → gtA b a = false := by
      intro a b hab
      simp only [gtA, decide_eq_true_eq] at hab
      simp only [gtA, decide_eq_false_iff_not]
      omega
    rw [hfun]
    unfold uniqueAudios dedupKeyed
    rw [filter_dedupAux keyA (encA ka) _ []]
    simp only [List.not_mem_nil, if_false]
    rw [find?_eq_head?_filter, find?_eq_head?_filter,
      filter_pySortDesc gtA keyA (encA ka) Hsame Htrans Hanti]

theorem gtV_trans : ∀ a b c : VRec, gtV a b = true → gtV b c = true → gtV a c = true := by
  intro a b c hab hbc
  simp only [gtV, decide_eq_true_eq] at hab hbc ⊢
  omega

theorem gtV_anti : ∀ a b : VRec, gtV a b = true → gtV b a = false := by
  intro a b hab
  simp only [gtV, decide_eq_true_eq] at hab
  simp only [gtV, decide_eq_false_iff_not]
  omega

theorem gtA_trans : ∀ a b c : ARec, gtA a b = true → gtA b c = true → gtA a c = true := by
  intro a b c hab hbc
  simp only [gtA, decide_eq_true_eq] at hab hbc ⊢
  omega

theorem gtA_anti : ∀ a b : ARec, gtA a b = true → gtA b a = false := by
  intro a b hab
  simp only [gtA, decide_eq_true_eq] at hab
  simp only [gtA, decide_eq_false_iff_not]
  omega

/-! ## C5: sorting, truncation and totals -/

/-- C5: on a successful extraction the exposed video list is the first 20
entries of the deduplicated list and is sorted descending by
`(height, fps)` lexicographically; the exposed audio list is the first 10
entries, sorted descending by bitrate; and the reported totals are the
full post-deduplication (pre-truncation) counts. -/
theorem sorted_truncated_totals (w : World) (url : List Char) (t : Nat) (pj : ParsedJson)
    (h : runYtDlpJson w url t = .ok pj) :
    envLookup (pstr "video_formats") (extract w url t) =
      some (.vlist ((uniqueVideos (formatsOf pj)).take 20)) ∧
    envLookup (pstr "audio_formats") (extract w url t) =
      some (.alist ((uniqueAudios (formatsOf pj)).take 10)) ∧
    envLookup (pstr "total_video_formats") (extract w url t) =
      some (.j (J.num (uniqueVideos (formatsOf pj)).length)) ∧
    envLookup (pstr "total_audio_formats") (extract w url t) =
      some (.j (J.num (uniqueAudios (formatsOf pj)).length)) ∧
    ((uniqueVideos (formatsOf pj)).take 20).Pairwise vGeKey ∧
    ((uniqueAudios (formatsOf pj)).take 10).Pairwise aGeKey ∧
    ((uniqueVideos (formatsOf pj)).take 20).length ≤ 20 ∧
    ((uniqueAudios (formatsOf pj)).take 10).length ≤ 10 := by
  have hex : extract w url t =
      [(pstr "success", .j (J.b true)),
       (pstr "video_info", .j (J.obj (videoInfoOf url pj))),
       (pstr "video_formats", .vlist ((uniqueVideos (formatsOf pj)).take 20)),
       (pstr "audio_formats", .alist ((uniqueAudios (formatsOf pj)).take 10)),
       (pstr "total_video_formats", .j (J.num (uniqueVideos (formatsOf pj)).length)),
       (pstr "total_audio_formats", .j (J.num (uniqueAudios (formatsOf pj)).length)),
       (pstr "extraction_time", .j (J.str w.now))] := by
    simp only [extract, h]
  refine ⟨?_, ?_, ?_, ?_, ?_, ?_, List.length_take_le _ _, List.length_take_le _ _⟩
  · rw [hex, envLookup_cons_ne _ _ (by decide), envLookup_cons_ne _ _ (by decide),
      envLookup_cons_eq]
  · rw [hex, envLookup_cons_ne _ _ (by decide), envLookup_cons_ne _ _ (by decide),
      envLookup_cons_ne _ _ (by decide), envLookup_cons_eq]
  · rw [hex, envLookup_cons_ne _ _ (by decide), envLookup_cons_ne _ _ (by decide),
      envLookup_cons_ne _ _ (by decide), envLookup_cons_ne _ _ (by decide),
      envLookup_cons_eq]
  · rw [hex, envLookup_cons_ne _ _ (by decide), envLookup_cons_ne _ _ (by decide),
      envLookup_cons_ne _ _ (by decide), envLookup_cons_ne _ _ (by decide),
      envLookup_cons_ne _ _ (by decide), envLookup_cons_eq]
  · have hsorted := pySortDesc_pairwise gtV gtV_trans gtV_anti
      (videoFormatsOf (formatsOf pj))
    have hsub : ((uniqueVideos (formatsOf pj)).take 20).Sublist
        (pySortDesc gtV (videoFormatsOf (formatsOf pj))) :=
      (List.take_sublist _ _).trans (dedupAux_sublist keyV _ [])
    exact (hsorted.sublist hsub).imp (by
      intro a b hb
      simp only [gtV, decide_eq_false_iff_not] at hb
      simp only [vGeKey]
      omega)
  · have hsorted := pySortDesc_pairwise gtA gtA_trans gtA_anti
      (audioFormatsOf (formatsOf pj))
    have hsub : ((uniqueAudios (formatsOf pj)).take 10).Sublist
        (pySortDesc gtA (audioFormatsOf (formatsOf pj))) :=
      (List.take_sublist _ _).trans (dedupAux_sublist keyA _ [])
    exact (hsorted.sublist hsub).imp (by
      intro a b hb
      simp only [gtA, decide_eq_false_iff_not] at hb
      simp only [aGeKey]
      omega)

/-- Witness for the sorting/truncation/totals claim at the concrete world
`wOk`, whose parse yields `pjStreams`. -/
theorem sorted_truncated_totals_witness :
    envLookup (pstr "video_formats") (extract wOk exu 30) =
      some (.vlist ((uniqueVideos (formatsOf pjStreams)).take 20)) ∧
    envLookup (pstr "audio_formats") (extract wOk exu 30) =
      some (.alist ((uniqueAudios (formatsOf pjStreams)).take 10)) ∧
    envLookup (pstr "total_video_formats") (extract wOk exu 30) =
      some (.j (J.num (uniqueVideos (formatsOf pjStreams)).length)) ∧
    envLookup (pstr "total_audio_formats") (extract wOk exu 30) =
      some (.j (J.num (uniqueAudios (formatsOf pjStreams)).length)) ∧
    ((uniqueVideos (formatsOf pjStreams)).take 20).Pairwise vGeKey ∧
    ((uniqueAudios (formatsOf pjStreams)).take 10).Pairwise aGeKey ∧
    ((uniqueVideos (formatsOf pjStreams)).take 20).length ≤ 20 ∧
    ((uniqueAudios (formatsOf pjStreams)).take 10).length ≤ 10 :=
  sorted_truncated_totals wOk exu 30 pjStreams rfl

/-! ## URL-normalizer lemmas -/

theorem isPrefixOf_cons_cons (p c : Char) (ps cs : List Char) :
    (p :: ps).isPrefixOf (c :: cs) = (p == c && ps.isPrefixOf cs) := rfl

theorem good_ne {c d : Char} (hc : goodIdChar c = true) (hd : goodIdChar d = false) :
    c ≠ d := by
  intro he
  subst he
  rw [hc] at hd
  cases hd

theorem good_wsSet {c : Char} (h : goodIdChar c = true) : wsSet c = false := by
  simp only [wsSet, Bool.or_eq_false_iff, decide_eq_false_iff_not, and_assoc]
  refine ⟨?_, ?_, ?_, ?_, ?_, ?_⟩ <;> exact good_ne h (by decide)

theorem good_quoteSet {c : Char} (h : goodIdChar c = true) : quoteSet c = false := by
  simp only [quoteSet, Bool.or_eq_false_iff, decide_eq_false_iff_not, and_assoc]
  refine ⟨?_, ?_, ?_, ?_, ?_, ?_⟩ <;> exact good_ne h (by decide)

theorem pyStrip_noop (p : Char → Bool) (l : List Char)
    (h1 : ∀ c, l.head? = some c → p c = false)
    (h2 : ∀ c, l.getLast? = some c → p c = false) : pyStrip p l = l := by
  have hL : stripLeft p l = l := by
    cases l with
    | nil => rfl
    | cons c cs => simp [stripLeft, h1 c rfl]
  rw [pyStrip, hL]
  unfold stripRight
  cases hr : l.reverse with
  | nil =>
    rw [List.reverse_eq_nil_iff] at hr
    subst hr
    rfl
  | cons c cs =>
    have hc : p c = false := by
      apply h2
      rw [← List.head?_reverse, hr]
      rfl
    simp only [stripLeft, hc, Bool.false_eq_true, if_false]
    rw [← hr, List.reverse_reverse]

theorem occursIn_false_of_missing (pat : List Char) (c : Char) (hc : c ∈ pat) :
    ∀ l : List Char, c ∉ l → occursIn pat l = false := by
  intro l
  induction l with
  | nil =>
    intro _
    cases pat with
    | nil => cases hc
    | cons p ps => rfl
  | cons d ds ih =>
    intro hl
    simp only [occursIn, Bool.or_eq_false_iff]
    constructor
    · by_contra hp
      rw [Bool.not_eq_false] at hp
      exact hl ((List.isPrefixOf_iff_prefix.mp hp).subset hc)
    · exact ih (fun hmem => hl (List.mem_cons_of_mem _ hmem))

theorem isPrefixOf_append_false (pat : List Char) :
    ∀ s B : List Char, (pat.take s.length).isPrefixOf s = false →
      pat.isPrefixOf (s ++ B) = false := by
  induction pat with
  | nil =>
    intro s B h
    exfalso
    rw [List.take_nil] at h
    cases s <;> cases h
  | cons p ps ih =>
    intro s B h
    cases s with
    | nil => cases h
    | cons c cs =>
      rw [List.length_cons, List.take_succ_cons, isPrefixOf_cons_cons] at h
      show (p :: ps).isPrefixOf (c :: (cs ++ B)) = false
      rw [isPrefixOf_cons_cons]
      rcases Bool.and_eq_false_iff.mp h with h | h
      · rw [h]
        rfl
      · rw [ih cs B h]
        exact Bool.and_false _

theorem occursIn_append_false (pat : List Char) :
    ∀ A B : List Char,
      (∀ i, i < A.length → pat.isPrefixOf (A.drop i ++ B) = false) →
      occursIn pat B = false → occursIn pat (A ++ B) = false := by
  intro A
  induction A with
  | nil =>
    intro B _ h2
    simpa using h2
  | cons a as ih =>
    intro B h1 h2
    show occursIn pat (a :: (as ++ B)) = false
    simp only [occursIn, Bool.or_eq_false_iff]
    refine ⟨h1 0 (by simp), ih B (fun i hi => h1 (i + 1) (by simpa using hi)) h2⟩

theorem occursIn_append_left (pat : List Char) :
    ∀ A B : List Char, occursIn pat A = true → occursIn pat (A ++ B) = true := by
  intro A
  induction A with
  | nil =>
    intro B h
    simp only [occursIn, List.isEmpty_iff] at h
    subst h
    cases B with
    | nil => rfl
    | cons b bs => rfl
  | cons a as ih =>
    intro B h
    show occursIn pat (a :: (as ++ B)) = true
    simp only [occursIn, Bool.or_eq_true] at h ⊢
    rcases h with h | h
    · exact Or.inl (List.isPrefixOf_iff_prefix.mpr
        ((List.isPrefixOf_iff_prefix.mp h).trans (List.prefix_append _ _)))
    · exact Or.inr (ih B h)

theorem isPrefixOf_append_of (pat A B : List Char) (h : pat.isPrefixOf A = true) :
    pat.isPrefixOf (A ++ B) = true :=
  List.isPrefixOf_iff_prefix.mpr ((List.isPrefixOf_iff_prefix.mp h).trans
    (List.prefix_append _ _))

theorem takeUntilChar_of_not_mem (t : Char) :
    ∀ l : List Char, t ∉ l → takeUntilChar t l = l := by
  intro l
  induction l with
  | nil => intro _; rfl
  | cons c cs ih =>
    intro h
    have hct : ¬ c = t := fun he => h (he ▸ List.mem_cons_self _ _)
    simp [takeUntilChar, hct, ih (fun hm => h (List.mem_cons_of_mem _ hm))]

theorem dropThroughChar_append (t : Char) :
    ∀ A B : List Char, t ∈ A → dropThroughChar t (A ++ B) = dropThroughChar t A ++ B := by
  intro A
  induction A with
  | nil => intro B h; cases h
  | cons a as ih =>
    intro B h
    by_cases hat : a = t
    · simp [dropThroughChar, hat]
    · have hmem : t ∈ as := by
        rcases List.mem_cons.mp h with he | hm
        · exact absurd he.symm hat
        · exact hm
      simp [dropThroughChar, hat, ih B hmem]

theorem splitOnChar_of_not_mem (t : Char) :
    ∀ l : List Char, t ∉ l → splitOnChar t l = [l] := by
  intro l
  induction l with
  | nil => intro _; rfl
  | cons c cs ih =>
    intro h
    have hct : ¬ c = t := fun he => h (he ▸ List.mem_cons_self _ _)
    simp [splitOnChar, hct, ih (fun hm => h (List.mem_cons_of_mem _ hm))]

theorem unquoteCore_noesc : ∀ n (l : List Char), l.length ≤ n →
    (∀ c ∈ l, c ≠ '%') → unquoteCore l = l := by
  intro n
  induction n with
  | zero =>
    intro l hl _
    have : l = [] := List.eq_nil_of_length_eq_zero (by omega)
    subst this
    rfl
  | succ n ih =>
    intro l hl hno
    match l with
    | [] => rfl
    | [c] => rfl
    | [c, c1] => rfl
    | c :: c1 :: c2 :: rest =>
      have hc : ¬ c = '%' := hno c (List.mem_cons_self _ _)
      show unquoteCore (c :: c1 :: c2 :: rest) = _
      unfold unquoteCore
      rw [if_neg (by simp [hc])]
      have := ih (c1 :: c2 :: rest) (by simp at hl ⊢; omega)
        (fun d hd => hno d (List.mem_cons_of_mem _ hd))
      rw [this]

theorem unquotePlus_noop (l : List Char)
    (h : ∀ c ∈ l, c ≠ '+' ∧ c ≠ '%') : unquotePlus l = l := by
  unfold unquotePlus
  have hmap : (l.map fun c => if c = '+' then ' ' else c) = l := by
    have : (l.map fun c => if c = '+' then ' ' else c) = l.map id := by
      apply List.map_congr_left
      intro a ha
      simp [(h a ha).1]
    rw [this, List.map_id]
  rw [hmap]
  exact unquoteCore_noesc l.length l le_rfl (fun c hc => (h c hc).2)

theorem cleanUrl_mkWatch (id : List Char) (hgood : ∀ c ∈ id, goodIdChar c = true) :
    cleanUrl (mkWatch id) = mkWatch id := by
  cases id with
  | nil => decide
  | cons c0 cs =>
    have hnomem : ∀ d : Char, goodIdChar d = false → d ∉ c0 :: cs := by
      intro d hd hmem
      rw [hgood d hmem] at hd
      cases hd
    have hne : mkWatch (c0 :: cs) ≠ [] :=
      List.append_ne_nil_of_left_ne_nil (by decide) _
    have hstripw : pyStrip wsSet (mkWatch (c0 :: cs)) = mkWatch (c0 :: cs) := by
      apply pyStrip_noop
      · intro c hc
        cases Option.some.inj hc
        decide
      · intro c hc
        rw [show (mkWatch (c0 :: cs)).getLast? = (c0 :: cs).getLast? by
              rw [mkWatch, List.getLast?_append,
                List.getLast?_eq_getLast _ (List.cons_ne_nil _ _)]
              rfl,
            List.getLast?_eq_getLast _ (List.cons_ne_nil _ _)] at hc
        cases Option.some.inj hc
        exact good_wsSet (hgood _ (List.getLast_mem _))
    have hstripq : pyStrip quoteSet (mkWatch (c0 :: cs)) = mkWatch (c0 :: cs) := by
      apply pyStrip_noop
      · intro c hc
        cases Option.some.inj hc
        decide
      · intro c hc
        rw [show (mkWatch (c0 :: cs)).getLast? = (c0 :: cs).getLast? by
              rw [mkWatch, List.getLast?_append,
                List.getLast?_eq_getLast _ (List.cons_ne_nil _ _)]
              rfl,
            List.getLast?_eq_getLast _ (List.cons_ne_nil _ _)] at hc
        cases Option.some.inj hc
        exact good_quoteSet (hgood _ (List.getLast_mem _))
    have hbe : occursIn (pstr "youtu.be/") (mkWatch (c0 :: cs)) = false := by
      show occursIn _ (pstr "https://www.youtube.com/watch?v=" ++ (c0 :: cs)) = false
      apply occursIn_append_false
      · have hdec : ∀ i, i < (pstr "https://www.youtube.com/watch?v=").length →
            ((pstr "youtu.be/").take
              ((pstr "https://www.youtube.com/watch?v=").drop i).length).isPrefixOf
              ((pstr "https://www.youtube.com/watch?v=").drop i) = false := by decide
        intro i hi
        exact isPrefixOf_append_false _ _ _ (hdec i hi)
      · exact occursIn_false_of_missing _ '.' (by decide) _ (hnomem '.' (by decide))
    have hsh : occursIn (pstr "youtube.com/shorts/") (mkWatch (c0 :: cs)) = false := by
      show occursIn _ (pstr "https://www.youtube.com/watch?v=" ++ (c0 :: cs)) = false
      apply occursIn_append_false
      · have hdec : ∀ i, i < (pstr "https://www.youtube.com/watch?v=").length →
            ((pstr "youtube.com/shorts/").take
              ((pstr "https://www.youtube.com/watch?v=").drop i).length).isPrefixOf
              ((pstr "https://www.youtube.com/watch?v=").drop i) = false := by decide
        intro i hi
        exact isPrefixOf_append_false _ _ _ (hdec i hi)
      · exact occursIn_false_of_missing _ '.' (by decide) _ (hnomem '.' (by decide))
    have hw : occursIn (pstr "youtube.com/watch") (mkWatch (c0 :: cs)) = true := by
      show occursIn _ (pstr "https://www.youtube.com/watch?v=" ++ (c0 :: cs)) = true
      exact occursIn_append_left _ _ _ (by decide)
    have hv : occursIn (pstr "v=") (mkWatch (c0 :: cs)) = true := by
      show occursIn _ (pstr "https://www.youtube.com/watch?v=" ++ (c0 :: cs)) = true
      exact occursIn_append_left _ _ _ (by decide)
    have hfrag : takeUntilChar '#' (mkWatch (c0 :: cs)) = mkWatch (c0 :: cs) := by
      apply takeUntilChar_of_not_mem
      intro hmem
      rcases List.mem_append.mp hmem with h | h
      · exact absurd h (by decide)
      · exact hnomem '#' (by decide) h
    have hcont : (mkWatch (c0 :: cs)).contains '?' = true := rfl
    have hquery : urlQueryOf (mkWatch (c0 :: cs)) = pstr "v=" ++ (c0 :: cs) := by
      simp only [urlQueryOf, hfrag, hcont, if_true]
      rw [show mkWatch (c0 :: cs) =
            pstr "https://www.youtube.com/watch?v=" ++ (c0 :: cs) from rfl,
          dropThroughChar_append '?' _ _ (by decide)]
      rfl
    have hsplit : splitOnChar '&' (pstr "v=" ++ (c0 :: cs)) = [pstr "v=" ++ (c0 :: cs)] := by
      apply splitOnChar_of_not_mem
      intro hmem
      rcases List.mem_append.mp hmem with h | h
      · exact absurd h (by decide)
      · exact hnomem '&' (by decide) h
    have hqs : qsLookupV [pstr "v=" ++ (c0 :: cs)] = some (c0 :: cs) := by
      have hcond : pstr "v=" ++ (c0 :: cs) ≠ [] ∧
          (pstr "v=" ++ (c0 :: cs)).contains '=' ∧
          dropThroughChar '=' (pstr "v=" ++ (c0 :: cs)) ≠ [] ∧
          unquotePlus (takeUntilChar '=' (pstr "v=" ++ (c0 :: cs))) = ['v'] :=
        ⟨List.cons_ne_nil _ _, rfl, List.cons_ne_nil _ _, rfl⟩
      show (if _ ∧ _ ∧ _ ∧ _ then _ else _) = _
      rw [if_pos hcond]
      show some (unquotePlus (c0 :: cs)) = some (c0 :: cs)
      rw [unquotePlus_noop _ (fun c hc =>
        ⟨good_ne (hgood c hc) (by decide), good_ne (hgood c hc) (by decide)⟩)]
    have hsch : (pstr "https://").isPrefixOf (mkWatch (c0 :: cs)) = true := by
      show List.isPrefixOf _ (pstr "https://www.youtube.com/watch?v=" ++ (c0 :: cs)) = true
      exact isPrefixOf_append_of _ _ _ (by decide)
    simp only [cleanUrl, hne, if_neg, hstripw, hstripq, hbe, hsh, hw, hv,
      Bool.false_eq_true, if_false, Bool.and_self, if_true, hquery, hsplit, hqs,
      hsch, Bool.or_true]

/-! ## C3: idempotence of the URL normalizer -/

/-- C3 counterexample: `_clean_url` is not idempotent.  On
`youtu.be/abc#frag` the first pass keeps the fragment inside the rewritten
watch URL, and the second pass drops it through `urlparse`/`parse_qs`, so
normalizing twice differs from normalizing once. -/
theorem normalize_not_idempotent :
    cleanUrl (pstr "youtu.be/abc#frag") =
      pstr "https://www.youtube.com/watch?v=abc#frag" ∧
    cleanUrl (cleanUrl (pstr "youtu.be/abc#frag")) =
      pstr "https://www.youtube.com/watch?v=abc" ∧
    cleanUrl (cleanUrl (pstr "youtu.be/abc#frag")) ≠
      cleanUrl (pstr "youtu.be/abc#frag") := by
  exact ⟨rfl, rfl, by decide⟩

/-- C3 (amended): the normalizer is idempotent on every input whose
normalized form is the canonical watch URL with an identifier drawn from
the YouTube identifier alphabet (ASCII alphanumerics, `-`, `_`) — in
particular on all ordinary short-link, shorts and watch URLs — but not on
arbitrary strings. -/
theorem normalize_idempotent_on_canonical (x id : List Char)
    (h : cleanUrl x = mkWatch id) (hgood : ∀ c ∈ id, goodIdChar c = true) :
    cleanUrl (cleanUrl x) = cleanUrl x := by
  rw [h, cleanUrl_mkWatch id hgood]

/-- Witness: idempotence at the concrete short link `youtu.be/abc`. -/
theorem normalize_idempotent_witness :
    cleanUrl (cleanUrl (pstr "youtu.be/abc")) = cleanUrl (pstr "youtu.be/abc") :=
  normalize_idempotent_on_canonical (pstr "youtu.be/abc") (pstr "abc") rfl (by decide)
